import Mathlib

/-!
ESPIR_Menu: the navigation and selection state machines.

A shallow embedding of `src/ESPIR_Library/ESPIR_Menu.cpp`.

* C `int` members are `Int`.  Every value in the statements below is a small
  index or count, so no arithmetic leaves the range of `int`.
* The heap array `selected_indexes` (allocated with `max` cells by the
  constructor) is a `List Int`; a read `a[i]` is `a.getD i 0` and a write
  `a[i] = v` is `a.set i v`.  The constructor stores to cell 0 unconditionally,
  so the source is only defined for `max >= 1`; the theorems are stated for
  arrays holding `max_selected` cells, where every access made by the
  methods is in bounds.
* A `for` loop with an increasing counter from `a` while `< b` runs
  `(b - a).toNat` times; each loop is a structural recursion on the number of
  iterations left, carrying the counter.
* The display is written to, never read.  Each method returns the new state
  together with the sequence of drawing calls it made, recorded at the level
  of the routines that paint one cell or one button (`Draw`).
* The heap array `selectors` of a `Button` has `MAX_SELECTORS` cells, each
  `none` until `addSelector` stores a Selector in it.  `MAX_SELECTORS` is
  defined in the header and is a parameter here.
* The pixel positions of a cell are given apart from the drawing calls
  (`column_x`, `Selector.cellTop`, `Selector.clearHeight`).  The library
  function `map` they go through is not part of the sources and is written
  from its stated formula.
-/

namespace ESPIR

/-- One drawing call made by a method, in program order. -/
inductive Draw where
  /-- Call `buttons[i].display()`: button `i` of the menu in normal style. -/
  | buttonDisplay (i : Int)
  /-- Call `buttons[i].displaySelected()`: button `i` in highlighted style. -/
  | buttonDisplaySelected (i : Int)
  /-- The `tft -> setCursor(...)` call that opens `Selector::drawItem(index)`. -/
  | itemCursor (index : Int)
  /-- Call `Selector::selectIndex(index)`: the cell on a green background. -/
  | selectIndex (index : Int)
  /-- Call `Selector::unselectIndex(index)`: the cell on a red background. -/
  | unselectIndex (index : Int)
  /-- The `tft->setTextColor(WHITE)` call that opens `Selector::display`. -/
  | promptColor
  /-- The `tft -> setCursor(x + 5, y)` call of `Selector::display`, with its
  two arguments. -/
  | promptCursor (cx cy : Int)
  /-- The `tft -> fillRect(x, y - 3, tft -> width(), height, ST77XX_BLACK)` call
  of `Selector::display`, with its first, second and fourth argument. -/
  | clearArea (rx ry height : Int)
  /-- The `tft -> print(prompt)` call of `Selector::display`. -/
  | printPrompt
  /-- The first `tft -> setCursor(...)` call of `Selector::flashSelected`. -/
  | flashCursor (index : Int)
  /-- The dark grey cell of `Selector::flashSelected`: its `fillRoundRect`,
  `setCursor` and `print(options[index])` calls. -/
  | flashIndex (index : Int)
  /-- Call `delay(ms)`. -/
  | delay (ms : Int)
  deriving DecidableEq

/-! ## ESPIR_Menu -/

/-- The members of `ESPIR_Menu` that `moveDown` and `moveUp` read or write.
The button array itself is only painted by them. -/
structure ESPIR_Menu where
  button_count : Int
  selected_button_index : Int
  deriving DecidableEq

/-- Method `ESPIR_Menu::moveDown`. The C operator `%` truncates: `Int.tmod`. -/
def ESPIR_Menu.moveDown (m : ESPIR_Menu) : ESPIR_Menu × List Draw :=
  let i := (m.selected_button_index + 1).tmod m.button_count
  ({ m with selected_button_index := i },
    [Draw.buttonDisplay m.selected_button_index, Draw.buttonDisplaySelected i])

/-- Method `ESPIR_Menu::moveUp`. -/
def ESPIR_Menu.moveUp (m : ESPIR_Menu) : ESPIR_Menu × List Draw :=
  let i := if m.selected_button_index = 0 then m.button_count - 1
    else m.selected_button_index - 1
  ({ m with selected_button_index := i },
    [Draw.buttonDisplay m.selected_button_index, Draw.buttonDisplaySelected i])

/-! ## Selector -/

/-- The integer members of `Selector` and its selection array. -/
structure Selector where
  x : Int
  y : Int
  selected_index : Int
  window_size : Int
  max_selected : Int
  current_changing_index : Int
  value_count : Int
  selected_indexes : List Int
  deriving DecidableEq

/-- The constructor loop `for (int i = 1; i < max; i++) selected_indexes[i] = -1;`
with `n` iterations left and counter `i`. -/
def initSentinels : Nat → Nat → List Int → List Int
  | 0, _, a => a
  | n + 1, i, a => initSentinels n (i + 1) (a.set i (-1))

/-- Constructor `Selector::Selector`. The fresh allocation of `max` cells is written as
zeros; for `max >= 1` every cell is overwritten before it is read. -/
def Selector.new (x_pos y_pos size max count : Int) : Selector :=
  { x := x_pos
    y := y_pos
    selected_index := 0
    window_size := size
    max_selected := max
    current_changing_index := 0
    value_count := count
    selected_indexes :=
      initSentinels (max - 1).toNat 1 ((List.replicate max.toNat 0).set 0 0) }

/-- Method `Selector::atTop`, with the state it leaves behind. -/
def Selector.atTop (s : Selector) : Selector × Int :=
  (s, if s.current_changing_index < s.window_size then 1 else 0)

/-- Method `Selector::atBottom`, with the state it leaves behind. -/
def Selector.atBottom (s : Selector) : Selector × Int :=
  (s, if s.current_changing_index ≥ s.value_count - s.window_size then 1 else 0)

/-- The membership loop of `drawItem`:
`for (int j = 0; j < max_selected; j++) if (selected_indexes[j] == index) { selected_test = 1; break; }`
with `n` iterations left and counter `j`; the result is `selected_test`. -/
def selectedTest (a : List Int) (index : Int) : Nat → Nat → Int
  | 0, _ => 0
  | n + 1, j => if a.getD j 0 = index then 1 else selectedTest a index n (j + 1)

/-- Method `Selector::drawItem`: the cursor placement, then the cell in the
style chosen by `selected_test`. -/
def Selector.drawItem (s : Selector) (index : Int) : List Draw :=
  Draw.itemCursor index ::
    (if selectedTest s.selected_indexes index s.max_selected.toNat 0 = 0 then
      [Draw.unselectIndex index]
    else
      [Draw.selectIndex index])

/-- Method `Selector::moveLeft`. -/
def Selector.moveLeft (s : Selector) : Selector × List Draw :=
  let s1 : Selector :=
    if s.current_changing_index > 0 then
      { s with current_changing_index := s.current_changing_index - 1 }
    else
      { s with current_changing_index := s.value_count - 1 }
  (s1, s.drawItem s.current_changing_index ++ s1.drawItem s1.current_changing_index)

/-- Method `Selector::moveRight`. -/
def Selector.moveRight (s : Selector) : Selector × List Draw :=
  let s1 : Selector :=
    if s.current_changing_index < s.value_count - 1 then
      { s with current_changing_index := s.current_changing_index + 1 }
    else
      { s with current_changing_index := 0 }
  (s1, s.drawItem s.current_changing_index ++ s1.drawItem s1.current_changing_index)

/-- Method `Selector::moveDown`. It makes no drawing call. -/
def Selector.moveDown (s : Selector) : Selector × List Draw :=
  ({ s with current_changing_index :=
      if s.current_changing_index + s.window_size > s.value_count then
        s.current_changing_index
      else
        s.current_changing_index + s.window_size }, [])

/-- Method `Selector::moveUp`. It makes no drawing call. -/
def Selector.moveUp (s : Selector) : Selector × List Draw :=
  ({ s with current_changing_index :=
      if s.current_changing_index - s.window_size < 0 then
        s.current_changing_index
      else
        s.current_changing_index - s.window_size }, [])

/-- The removal loop of `press`:
`for (int j = i; j < max_selected-1; j++) selected_indexes[j] = selected_indexes[j+1];`
with `n` iterations left and counter `j`. -/
def shiftLeft : Nat → Nat → List Int → List Int
  | 0, _, a => a
  | n + 1, j, a => shiftLeft n (j + 1) (a.set j (a.getD (j + 1) 0))

/-- The insertion loop of `press`:
`for (int i = max_selected - 1; i > 0; i--) selected_indexes[i] = selected_indexes[i-1];`
with the counter at `i` (it stops at 0). -/
def shiftRight : Nat → List Int → List Int
  | 0, a => a
  | i + 1, a => shiftRight i (a.set (i + 1) (a.getD i 0))

/-- The search loop of the multi-select branch of `press`, with `n` iterations
left and counter `i`.  `some r` is an early `return` from inside the loop with
outcome `r`; `none` means the loop ran to its end without a match. -/
def pressScan (s : Selector) : Nat → Nat → Option (Selector × List Draw)
  | 0, _ => none
  | n + 1, i =>
    if s.selected_indexes.getD i 0 = s.current_changing_index then
      if i = 0 ∧ s.selected_indexes.getD 1 0 = -1 then
        some (s, [])
      else
        let a := shiftLeft (s.max_selected - 1 - (i : Int)).toNat i s.selected_indexes
        some ({ s with selected_indexes := a.set (s.max_selected - 1).toNat (-1) }, [])
    else
      pressScan s n (i + 1)

/-- Method `Selector::press`. The two early `return`s of the multi-select branch
leave before the closing `selectIndex` call. -/
def Selector.press (s : Selector) : Selector × List Draw :=
  if s.max_selected = 1 then
    ({ s with selected_indexes := s.selected_indexes.set 0 s.current_changing_index },
      [Draw.unselectIndex (s.selected_indexes.getD 0 0),
       Draw.selectIndex s.current_changing_index])
  else
    match pressScan s s.max_selected.toNat 0 with
    | some r => r
    | none =>
      let last := (s.max_selected - 1).toNat
      let evicted := s.selected_indexes.getD last 0
      let a := shiftRight last s.selected_indexes
      ({ s with selected_indexes := a.set 0 s.current_changing_index },
        (if evicted ≠ -1 then [Draw.unselectIndex evicted] else []) ++
          [Draw.selectIndex s.current_changing_index])

/-! ## Call sequences -/

/-- The state-changing commands of a Selector. -/
inductive Op where
  | press
  | moveLeft
  | moveRight
  | moveUp
  | moveDown
  deriving DecidableEq

/-- One command applied to a Selector. -/
def Selector.step (s : Selector) : Op → Selector × List Draw
  | Op.press => s.press
  | Op.moveLeft => s.moveLeft
  | Op.moveRight => s.moveRight
  | Op.moveUp => s.moveUp
  | Op.moveDown => s.moveDown

/-- The state after a finite sequence of commands, applied left to right. -/
def Selector.run (s : Selector) : List Op → Selector
  | [] => s
  | o :: ops => Selector.run (s.step o).1 ops

/-- The number of entries of the selection array that are not the sentinel. -/
def Selector.selectedCount (s : Selector) : Nat :=
  (s.selected_indexes.filter (fun v => v ≠ -1)).length

/-- The cursor value at the most recent `press` of a command sequence started
in `s`, or `d` when the sequence holds no `press`. -/
def lastPressCursor (s : Selector) (d : Int) : List Op → Int
  | [] => d
  | o :: ops =>
    lastPressCursor (s.step o).1 (if o = Op.press then s.current_changing_index else d) ops


/-! ## Representation invariant -/

/-- A selection array is packed: one or more pairwise distinct entries other
than the sentinel come first, and every cell after them holds the sentinel. -/
def Packed (a : List Int) : Prop :=
  ∃ (pre : List Int) (m : Nat),
    a = pre ++ List.replicate m (-1) ∧ pre ≠ [] ∧ (-1 : Int) ∉ pre ∧ pre.Nodup

/-- What construction with `window_size >= 1`, `value_count >= 1` and
`max >= 1` establishes and every command keeps: the array has `max_selected`
cells and is packed, and the cursor is not negative. -/
structure Selector.Inv (s : Selector) : Prop where
  ws : 1 ≤ s.window_size
  vc : 1 ≤ s.value_count
  len : s.max_selected.toNat = s.selected_indexes.length
  cur : 0 ≤ s.current_changing_index
  packed : Packed s.selected_indexes

/-! ## Selector drawing -/

/-- The loop of `Selector::cycleButtons`:
`for (int i = 0; i < value_count; i++) drawItem(i);`
with `n` iterations left and counter `i`. -/
def cycleLoop (s : Selector) : Nat → Int → List Draw
  | 0, _ => []
  | n + 1, i => s.drawItem i ++ cycleLoop s n (i + 1)

/-- Method `Selector::cycleButtons`. -/
def Selector.cycleButtons (s : Selector) : Selector × List Draw :=
  (s, cycleLoop s s.value_count.toNat 0)

/-- The height argument of `fillRect` in `Selector::display`:
`31 + 13 * (ceil(value_count/window_size) - 1)`.  Both operands of `/` are
`int`, so the quotient is the truncated integer quotient and `ceil` receives
an integral value, which it returns as it is. -/
def Selector.clearHeight (s : Selector) : Int :=
  31 + 13 * (s.value_count.tdiv s.window_size - 1)

/-- Method `Selector::display`. -/
def Selector.display (s : Selector) : Selector × List Draw :=
  (s, [Draw.promptColor, Draw.promptCursor (s.x + 5) s.y,
        Draw.clearArea s.x (s.y - 3) s.clearHeight, Draw.printPrompt] ++
      s.cycleButtons.2)

/-- The y argument of `fillRoundRect` in `selectIndex` and `unselectIndex`:
`y + 10 + 13*floor(index/window_size)`, the top of the cell of option `index`.
The quotient is the truncated integer quotient, on which `floor` does nothing.
The cell is 12 high. -/
def Selector.cellTop (s : Selector) (index : Int) : Int :=
  s.y + 10 + 13 * (index.tdiv s.window_size)

/-- Method `Selector::flashSelected`. -/
def Selector.flashSelected (s : Selector) : Selector × List Draw :=
  let selected_test :=
    selectedTest s.selected_indexes s.current_changing_index s.max_selected.toNat 0
  (s, [Draw.flashCursor s.current_changing_index,
       Draw.flashIndex s.current_changing_index, Draw.delay 100] ++
      (if selected_test = 0 then [Draw.unselectIndex s.current_changing_index]
        else [Draw.selectIndex s.current_changing_index]) ++
      [Draw.delay 100])

/-- The drawing call that paints cell `index` in the style the selection array
gives it: selected when `index` is an entry of the array, unselected otherwise. -/
def Selector.cellStyle (s : Selector) (index : Int) : Draw :=
  if index ∈ s.selected_indexes then Draw.selectIndex index else Draw.unselectIndex index

/-- Modelled from the spec: the Arduino core function `map`, which the cell
painters call and which is not among the repository sources.  It is taken as
the integer linear map
`(x - in_min) * (out_max - out_min) / (in_max - in_min) + out_min`
with the truncating division of C; a zero divisor has no defined result and
gives `none`. -/
def map (x in_min in_max out_min out_max : Int) : Option Int :=
  if in_max - in_min = 0 then none
  else some (((x - in_min) * (out_max - out_min)).tdiv (in_max - in_min) + out_min)

/-- The x argument of `fillRoundRect` in `selectIndex`, `unselectIndex` and
`flashSelected`, and the position `drawItem` places the cursor from:
`map(index%window_size, 0, window_size - 1, 3, tft -> width() - (tft -> width()/window_size))`
where `W` is the display width `tft -> width()`. -/
def column_x (W window_size index : Int) : Option Int :=
  map (index.tmod window_size) 0 (window_size - 1) 3 (W - W.tdiv window_size)

/-! ## Button -/

/-- The integer members of `Button` and its selector array.  The array is
allocated with `MAX_SELECTORS` cells that hold nothing until `addSelector`
stores to them: a cell is `none` until then. -/
structure Button where
  x : Int
  y : Int
  w : Int
  h : Int
  selector_count : Int
  selectors : List (Option Selector)
  current_selector : Int
  deriving DecidableEq

/-- Constructor `Button::Button`.  The constant `MAX_SELECTORS` comes from the
header and is a parameter. -/
def Button.new (x_pos y_pos width height MAX_SELECTORS : Int) : Button :=
  { x := x_pos
    y := y_pos
    w := width
    h := height
    selector_count := 0
    selectors := List.replicate MAX_SELECTORS.toNat none
    current_selector := 0 }

/-- A read of `selectors[i]`. -/
def Button.cell (b : Button) (i : Int) : Option Selector :=
  if 0 ≤ i then b.selectors.getD i.toNat none else none

/-- A write `selectors[i] = s`. -/
def Button.store (b : Button) (i : Int) (s : Selector) : Button :=
  if 0 ≤ i then { b with selectors := b.selectors.set i.toNat (some s) } else b

/-- Method `Button::addSelector`. -/
def Button.addSelector (MAX_SELECTORS : Int) (b : Button) (window_size max vals : Int) :
    Button :=
  if b.selector_count < MAX_SELECTORS then
    let b1 : Button := { b with selector_count := b.selector_count + 1 }
    b1.store (b1.selector_count - 1)
      (Selector.new 0 (b1.selector_count * 28 - 25) window_size max vals)
  else
    b

/-- Method `Button::pressSubMenu`.  A call on a cell that holds no Selector has
no defined effect in the source; the model leaves the state as it is. -/
def Button.pressSubMenu (b : Button) : Button × List Draw :=
  match b.cell b.current_selector with
  | none => (b, [])
  | some s => (b.store b.current_selector s.press.1, s.press.2)

/-- Method `Button::subMenuDown`. -/
def Button.subMenuDown (b : Button) : Button × List Draw :=
  match b.cell b.current_selector with
  | none => (b, [])
  | some s =>
    if s.atBottom.2 = 1 then
      if b.current_selector ≠ b.selector_count - 1 then
        ({ b with current_selector := b.current_selector + 1 }, [])
      else
        ({ b with current_selector := 0 }, [])
    else if s.atBottom.2 = 0 then
      (b.store b.current_selector s.moveDown.1, s.moveDown.2)
    else
      (b, [])

/-- Method `Button::subMenuUp`. -/
def Button.subMenuUp (b : Button) : Button × List Draw :=
  match b.cell b.current_selector with
  | none => (b, [])
  | some s =>
    if s.atTop.2 = 1 then
      if b.current_selector ≠ 0 then
        ({ b with current_selector := b.current_selector - 1 }, [])
      else
        ({ b with current_selector := b.selector_count - 1 }, [])
    else
      (b.store b.current_selector s.moveUp.1, s.moveUp.2)

/-- Method `Button::subMenuLeft`. -/
def Button.subMenuLeft (b : Button) : Button × List Draw :=
  match b.cell b.current_selector with
  | none => (b, [])
  | some s => (b.store b.current_selector s.moveLeft.1, s.moveLeft.2)

/-- Method `Button::subMenuRight`. -/
def Button.subMenuRight (b : Button) : Button × List Draw :=
  match b.cell b.current_selector with
  | none => (b, [])
  | some s => (b.store b.current_selector s.moveRight.1, s.moveRight.2)

/-- The arguments of one `addSelector` call that the model keeps:
`window_size`, `max` and `vals`. -/
structure SelectorArgs where
  window_size : Int
  max : Int
  vals : Int
  deriving DecidableEq

/-- A Button after a sequence of `addSelector` calls, in order. -/
def Button.addAll (MAX_SELECTORS : Int) (b : Button) : List SelectorArgs → Button
  | [] => b
  | a :: as =>
    Button.addAll MAX_SELECTORS
      (Button.addSelector MAX_SELECTORS b a.window_size a.max a.vals) as

/-- The navigation and press commands of a Button sub-menu. -/
inductive Cmd where
  | subMenuDown
  | subMenuUp
  | subMenuLeft
  | subMenuRight
  | pressSubMenu
  deriving DecidableEq

/-- One sub-menu command applied to a Button. -/
def Button.step (b : Button) : Cmd → Button × List Draw
  | Cmd.subMenuDown => b.subMenuDown
  | Cmd.subMenuUp => b.subMenuUp
  | Cmd.subMenuLeft => b.subMenuLeft
  | Cmd.subMenuRight => b.subMenuRight
  | Cmd.pressSubMenu => b.pressSubMenu

/-- The Button after a finite sequence of sub-menu commands. -/
def Button.run (b : Button) : List Cmd → Button
  | [] => b
  | c :: cs => Button.run (b.step c).1 cs

/-- A Selector whose cursor and selected indices are option indices: the
representation invariant holds, the cursor is below `value_count`, and every
entry of the array is the sentinel or lies in `[0, value_count)`. -/
structure Selector.Good (s : Selector) : Prop where
  inv : s.Inv
  cur_lt : s.current_changing_index < s.value_count
  entries : ∀ v ∈ s.selected_indexes, v = -1 ∨ (0 ≤ v ∧ v < s.value_count)

/-- A Button with two Selectors for the examples: the first has
`window_size = 3`, `value_count = 7`, one selection cell and the given cursor,
the second is freshly built with `window_size = 2`, `max = 2`, `vals = 4`. -/
def sampleButton (cursor current : Int) : Button :=
  { x := 0
    y := 4
    w := 128
    h := 12
    selector_count := 2
    selectors := [some (Selector.mk 0 3 0 3 1 cursor 7 [0]), some (Selector.new 0 31 2 2 4)]
    current_selector := current }

/-- A Button whose sub-menu can take commands: `current_selector` is in
`[0, selector_count)`, every cell below `selector_count` holds a Selector, and
every Selector held is `Good`. -/
structure Button.Ready (b : Button) : Prop where
  cs0 : 0 ≤ b.current_selector
  cs1 : b.current_selector < b.selector_count
  filled : ∀ j, 0 ≤ j → j < b.selector_count → ∃ s, b.cell j = some s
  good : ∀ j s, b.cell j = some s → s.Good

/-! ## Menu highlight -/

theorem tmod_succ_of_range (i n : Int) (h0 : 0 ≤ i) (h1 : i < n) :
    (i + 1).tmod n = if i + 1 = n then 0 else i + 1 := by
  rw [Int.tmod_eq_emod (by omega) (by omega)]
  split
  · next h => rw [h]; exact Int.emod_self
  · next h => exact Int.emod_eq_of_lt (by omega) (by omega)

theorem emod_succ_of_range (i n : Int) (h0 : 0 ≤ i) (h1 : i < n) :
    (i + 1) % n = if i + 1 = n then 0 else i + 1 := by
  split
  · next h => rw [h]; exact Int.emod_self
  · next h => exact Int.emod_eq_of_lt (by omega) (by omega)

theorem emod_pred_of_range (i n : Int) (h0 : 0 ≤ i) (h1 : i < n) :
    (i + n - 1) % n = if i = 0 then n - 1 else i - 1 := by
  split
  · next h => subst h; simpa using Int.emod_eq_of_lt (by omega) (by omega)
  · next h =>
    have : i + n - 1 = (i - 1) + n := by ring
    rw [this, Int.add_emod_self]
    exact Int.emod_eq_of_lt (by omega) (by omega)

/-- C7: on a menu with at least one button and the highlighted index in range,
`moveDown` then `moveUp`, and `moveUp` then `moveDown`, both give back the
state they started from, so the highlighted index returns to its value. -/
theorem menu_moveDown_moveUp_roundtrip (m : ESPIR_Menu) (hc : 1 ≤ m.button_count)
    (h0 : 0 ≤ m.selected_button_index) (h1 : m.selected_button_index < m.button_count) :
    m.moveDown.1.moveUp.1 = m ∧ m.moveUp.1.moveDown.1 = m ∧
    m.moveDown.1.moveUp.1.selected_button_index = m.selected_button_index ∧
    m.moveUp.1.moveDown.1.selected_button_index = m.selected_button_index := by
  obtain ⟨n, i⟩ := m
  simp only at hc h0 h1
  have hd : (ESPIR_Menu.mk n i).moveDown.1.moveUp.1 = ESPIR_Menu.mk n i := by
    simp only [ESPIR_Menu.moveDown, ESPIR_Menu.moveUp, tmod_succ_of_range i n h0 h1]
    congr 1
    split_ifs <;> omega
  have hu : (ESPIR_Menu.mk n i).moveUp.1.moveDown.1 = ESPIR_Menu.mk n i := by
    simp only [ESPIR_Menu.moveDown, ESPIR_Menu.moveUp]
    congr 1
    by_cases hi : i = 0
    · subst hi
      simp only [if_true]
      rw [tmod_succ_of_range (n - 1) n (by omega) (by omega)]
      simp
    · rw [if_neg hi, tmod_succ_of_range (i - 1) n (by omega) (by omega)]
      rw [if_neg (by omega)]
      omega
  exact ⟨hd, hu, by rw [hd], by rw [hu]⟩

theorem menu_moveDown_moveUp_roundtrip_witness :
    (ESPIR_Menu.mk 3 2).moveDown.1.moveUp.1 = ESPIR_Menu.mk 3 2 ∧
    (ESPIR_Menu.mk 3 2).moveUp.1.moveDown.1 = ESPIR_Menu.mk 3 2 ∧
    (ESPIR_Menu.mk 3 2).moveDown.1.moveUp.1.selected_button_index = 2 ∧
    (ESPIR_Menu.mk 3 2).moveUp.1.moveDown.1.selected_button_index = 2 :=
  menu_moveDown_moveUp_roundtrip (ESPIR_Menu.mk 3 2) (by decide) (by decide) (by decide)

/-- C8: on a menu with at least one button and highlighted index `i` in range,
`moveDown` sets the index to `(i + 1) mod button_count` and `moveUp` sets it to
`(i + button_count - 1) mod button_count`; the new index is in range, the
button count is kept, and each move draws exactly two buttons: button `i` in
normal style, then the new highlighted button in highlighted style. -/
theorem menu_move_circular (m : ESPIR_Menu) (hc : 1 ≤ m.button_count)
    (h0 : 0 ≤ m.selected_button_index) (h1 : m.selected_button_index < m.button_count) :
    (m.moveDown.1.selected_button_index = (m.selected_button_index + 1) % m.button_count ∧
      0 ≤ m.moveDown.1.selected_button_index ∧
      m.moveDown.1.selected_button_index < m.button_count ∧
      m.moveDown.1.button_count = m.button_count ∧
      m.moveDown.2 = [Draw.buttonDisplay m.selected_button_index,
        Draw.buttonDisplaySelected ((m.selected_button_index + 1) % m.button_count)]) ∧
    (m.moveUp.1.selected_button_index =
        (m.selected_button_index + m.button_count - 1) % m.button_count ∧
      0 ≤ m.moveUp.1.selected_button_index ∧
      m.moveUp.1.selected_button_index < m.button_count ∧
      m.moveUp.1.button_count = m.button_count ∧
      m.moveUp.2 = [Draw.buttonDisplay m.selected_button_index,
        Draw.buttonDisplaySelected
          ((m.selected_button_index + m.button_count - 1) % m.button_count)]) := by
  obtain ⟨n, i⟩ := m
  simp only at hc h0 h1
  simp only [ESPIR_Menu.moveDown, ESPIR_Menu.moveUp, tmod_succ_of_range i n h0 h1,
    emod_succ_of_range i n h0 h1, emod_pred_of_range i n h0 h1]
  refine ⟨⟨trivial, ?_, ?_, trivial, trivial⟩, ⟨trivial, ?_, ?_, trivial, trivial⟩⟩ <;>
    split_ifs <;> omega

theorem menu_move_circular_witness :
    ((ESPIR_Menu.mk 3 2).moveDown.1.selected_button_index = (2 + 1) % 3 ∧
      0 ≤ (ESPIR_Menu.mk 3 2).moveDown.1.selected_button_index ∧
      (ESPIR_Menu.mk 3 2).moveDown.1.selected_button_index < 3 ∧
      (ESPIR_Menu.mk 3 2).moveDown.1.button_count = 3 ∧
      (ESPIR_Menu.mk 3 2).moveDown.2 = [Draw.buttonDisplay 2,
        Draw.buttonDisplaySelected ((2 + 1) % 3)]) ∧
    ((ESPIR_Menu.mk 3 2).moveUp.1.selected_button_index = (2 + 3 - 1) % 3 ∧
      0 ≤ (ESPIR_Menu.mk 3 2).moveUp.1.selected_button_index ∧
      (ESPIR_Menu.mk 3 2).moveUp.1.selected_button_index < 3 ∧
      (ESPIR_Menu.mk 3 2).moveUp.1.button_count = 3 ∧
      (ESPIR_Menu.mk 3 2).moveUp.2 = [Draw.buttonDisplay 2,
        Draw.buttonDisplaySelected ((2 + 3 - 1) % 3)]) :=
  menu_move_circular (ESPIR_Menu.mk 3 2) (by decide) (by decide) (by decide)


/-! ## Selector queries and row moves -/

/-- C9: with the cursor in `[0, value_count)`, `atTop` returns 1 exactly when
the cursor is in `[0, window_size)` and 0 otherwise, `atBottom` returns 1 exactly
when the cursor is in `[value_count - window_size, value_count)` and 0
otherwise; for `window_size = 3`, `value_count = 7` that is exactly the cursors
4, 5 and 6.  Both calls leave the state as it was. -/
theorem atTop_atBottom_spec (s : Selector) (h0 : 0 ≤ s.current_changing_index)
    (h1 : s.current_changing_index < s.value_count) :
    (s.atTop.2 = 1 ↔ 0 ≤ s.current_changing_index ∧ s.current_changing_index < s.window_size) ∧
    (s.atTop.2 = 1 ∨ s.atTop.2 = 0) ∧
    (s.atBottom.2 = 1 ↔ s.value_count - s.window_size ≤ s.current_changing_index ∧
      s.current_changing_index < s.value_count) ∧
    (s.atBottom.2 = 1 ∨ s.atBottom.2 = 0) ∧
    (s.window_size = 3 → s.value_count = 7 →
      (s.atBottom.2 = 1 ↔ s.current_changing_index = 4 ∨ s.current_changing_index = 5 ∨
        s.current_changing_index = 6)) ∧
    s.atTop.1 = s ∧ s.atBottom.1 = s := by
  simp only [Selector.atTop, Selector.atBottom]
  refine ⟨?_, ?_, ?_, ?_, ?_, trivial, trivial⟩
  · split_ifs <;> simp <;> omega
  · split_ifs <;> simp
  · split_ifs <;> simp <;> omega
  · split_ifs <;> simp
  · intro hw hv
    split_ifs <;> simp <;> omega

theorem atTop_atBottom_spec_witness :
    ((Selector.mk 0 3 0 3 1 4 7 [0]).atTop.2 = 1 ↔ (0 : Int) ≤ 4 ∧ (4 : Int) < 3) ∧
    ((Selector.mk 0 3 0 3 1 4 7 [0]).atTop.2 = 1 ∨ (Selector.mk 0 3 0 3 1 4 7 [0]).atTop.2 = 0) ∧
    ((Selector.mk 0 3 0 3 1 4 7 [0]).atBottom.2 = 1 ↔ (7 : Int) - 3 ≤ 4 ∧ (4 : Int) < 7) ∧
    ((Selector.mk 0 3 0 3 1 4 7 [0]).atBottom.2 = 1 ∨
      (Selector.mk 0 3 0 3 1 4 7 [0]).atBottom.2 = 0) ∧
    ((3 : Int) = 3 → (7 : Int) = 7 →
      ((Selector.mk 0 3 0 3 1 4 7 [0]).atBottom.2 = 1 ↔ (4 : Int) = 4 ∨ (4 : Int) = 5 ∨
        (4 : Int) = 6)) ∧
    (Selector.mk 0 3 0 3 1 4 7 [0]).atTop.1 = Selector.mk 0 3 0 3 1 4 7 [0] ∧
    (Selector.mk 0 3 0 3 1 4 7 [0]).atBottom.1 = Selector.mk 0 3 0 3 1 4 7 [0] :=
  atTop_atBottom_spec (Selector.mk 0 3 0 3 1 4 7 [0]) (by decide) (by decide)

/-- C10: in every state, `moveDown` sets the cursor to `cursor + window_size`
when `cursor + window_size <= value_count` and otherwise leaves it as it is;
`moveUp` sets it to `cursor - window_size` when `cursor - window_size >= 0` and
otherwise leaves it as it is; both change no other member and make no drawing
call. -/
theorem moveDown_moveUp_spec (s : Selector) :
    s.moveDown.1 = { s with current_changing_index :=
      if s.current_changing_index + s.window_size ≤ s.value_count then
        s.current_changing_index + s.window_size
      else s.current_changing_index } ∧
    s.moveDown.2 = [] ∧
    s.moveUp.1 = { s with current_changing_index :=
      if s.current_changing_index - s.window_size ≥ 0 then
        s.current_changing_index - s.window_size
      else s.current_changing_index } ∧
    s.moveUp.2 = [] := by
  refine ⟨?_, rfl, ?_, rfl⟩
  · simp only [Selector.moveDown]
    congr 1
    split_ifs <;> first | rfl | omega
  · simp only [Selector.moveUp]
    congr 1
    split_ifs <;> first | rfl | omega

/-! ## The array loops in closed form -/

theorem set_length_append_cons (l1 l2 : List Int) (x v : Int) :
    (l1 ++ x :: l2).set l1.length v = l1 ++ v :: l2 := by
  induction l1 with
  | nil => rfl
  | cons h t ih => simp [List.set, ih]

theorem getD_length_append_cons (l1 l2 : List Int) (x d : Int) :
    (l1 ++ x :: l2).getD l1.length d = x := by
  induction l1 with
  | nil => rfl
  | cons h t ih => simpa using ih

theorem initSentinels_eq (l2 l1 : List Int) :
    initSentinels l2.length l1.length (l1 ++ l2) = l1 ++ List.replicate l2.length (-1) := by
  induction l2 generalizing l1 with
  | nil => simp [initSentinels]
  | cons x t ih =>
    simp only [List.length_cons, initSentinels, set_length_append_cons]
    have h := ih (l1 ++ [-1])
    simp only [List.length_append, List.length_singleton, List.append_assoc,
      List.singleton_append] at h
    rw [h, List.replicate_succ]

theorem new_selected_indexes (x_pos y_pos size max count : Int) (hmax : 1 ≤ max) :
    (Selector.new x_pos y_pos size max count).selected_indexes =
      0 :: List.replicate (max - 1).toNat (-1) := by
  obtain ⟨k, rfl⟩ : ∃ k : Nat, max = (k : Int) + 1 := ⟨(max - 1).toNat, by omega⟩
  have h := initSentinels_eq (List.replicate k 0) [0]
  simp only [List.length_replicate, List.length_singleton, List.singleton_append] at h
  have e1 : ((k : Int) + 1).toNat = k + 1 := by omega
  have e2 : ((k : Int) + 1 - 1).toNat = k := by omega
  simp only [Selector.new, e1, e2, List.replicate_succ, List.set_cons_zero]
  exact h

theorem shiftLeft_eq (l2 l1 : List Int) (x : Int) :
    ∃ z, shiftLeft l2.length l1.length (l1 ++ x :: l2) = l1 ++ l2 ++ [z] := by
  induction l2 generalizing l1 x with
  | nil => exact ⟨x, by simp [shiftLeft]⟩
  | cons y t ih =>
    obtain ⟨z, hz⟩ := ih (l1 ++ [y]) y
    refine ⟨z, ?_⟩
    have hg : (l1 ++ x :: y :: t).getD (l1.length + 1) 0 = y := by
      have := getD_length_append_cons (l1 ++ [x]) t y 0
      simpa using this
    simp only [List.length_cons, shiftLeft, hg, set_length_append_cons]
    simp only [List.length_append, List.length_singleton, List.append_assoc,
      List.singleton_append] at hz
    rw [hz]
    simp

theorem shiftRight_eq (l1 : List Int) (x : Int) (l2 : List Int) :
    ∃ z, shiftRight l1.length (l1 ++ x :: l2) = z :: (l1 ++ l2) := by
  induction l1 using List.reverseRecOn generalizing x l2 with
  | nil => exact ⟨x, by simp [shiftRight]⟩
  | append_singleton t y ih =>
    obtain ⟨z, hz⟩ := ih y (y :: l2)
    refine ⟨z, ?_⟩
    have hg : (t ++ [y] ++ x :: l2).getD t.length 0 = y := by
      have := getD_length_append_cons t (x :: l2) y 0
      simpa using this
    have hs : (t ++ [y] ++ x :: l2).set (t.length + 1) y = t ++ y :: y :: l2 := by
      simp
    simp only [List.length_append, List.length_singleton, shiftRight, hg, hs]
    rw [hz]
    simp


/-! ## `press` in closed form -/

theorem pressScan_none (s : Selector) (n i : Nat)
    (h : ∀ j, i ≤ j → j < i + n →
      s.selected_indexes.getD j 0 ≠ s.current_changing_index) :
    pressScan s n i = none := by
  induction n generalizing i with
  | zero => rfl
  | succ n ih =>
    simp only [pressScan]
    rw [if_neg (h i (Nat.le_refl i) (by omega))]
    exact ih (i + 1) (fun j h1 h2 => h j (by omega) (by omega))

theorem pressScan_some (s : Selector) (n i p : Nat) (hip : i ≤ p) (hpn : p < i + n)
    (h : ∀ j, i ≤ j → j < p → s.selected_indexes.getD j 0 ≠ s.current_changing_index)
    (hp : s.selected_indexes.getD p 0 = s.current_changing_index) :
    pressScan s n i =
      some (if p = 0 ∧ s.selected_indexes.getD 1 0 = -1 then (s, [])
        else ({ s with selected_indexes := List.set
                          (shiftLeft (s.max_selected - 1 - (p : Int)).toNat p s.selected_indexes)
                          (s.max_selected - 1).toNat (-1) }, [])) := by
  induction n generalizing i with
  | zero => omega
  | succ n ih =>
    simp only [pressScan]
    by_cases hi : i = p
    · subst hi
      rw [if_pos hp]
      split_ifs <;> rfl
    · rw [if_neg (h i (Nat.le_refl i) (by omega))]
      exact ih (i + 1) (by omega) (by omega) (fun j h1 h2 => h j (by omega) h2)

theorem getD_ne_of_not_mem (l : List Int) (c : Int) (hc : c ∉ l) (j : Nat) (hj : j < l.length) :
    l.getD j 0 ≠ c := by
  intro he
  apply hc
  rw [← he, List.getD_eq_getElem l 0 hj]
  exact List.getElem_mem hj

/-- The insertion branch of `press`: the cursor's index is not in the array. -/
theorem press_absent (s : Selector) (l : List Int) (z : Int) (hm : s.max_selected ≠ 1)
    (hsel : s.selected_indexes = l ++ [z])
    (hlen : s.max_selected.toNat = s.selected_indexes.length)
    (hc : s.current_changing_index ∉ s.selected_indexes) :
    s.press = ({ s with selected_indexes := s.current_changing_index :: l },
      (if z ≠ -1 then [Draw.unselectIndex z] else []) ++
        [Draw.selectIndex s.current_changing_index]) := by
  have hn := pressScan_none s s.max_selected.toNat 0
    (fun j _ h2 => getD_ne_of_not_mem _ _ hc j (by omega))
  have hlast : (s.max_selected - 1).toNat = l.length := by
    rw [hsel] at hlen
    simp at hlen
    omega
  obtain ⟨z1, hz1⟩ := shiftRight_eq l z []
  have hg : (l ++ [z]).getD l.length 0 = z := getD_length_append_cons l [] z 0
  simp only [Selector.press, if_neg hm, hn, hlast, hsel, hz1, hg, List.append_nil,
    List.set_cons_zero]

/-- The removal branch of `press`: the first occurrence of the cursor's index
is cut out, later entries move one cell left and the last cell becomes -1. -/
theorem press_remove (s : Selector) (l1 l2 : List Int) (hm : s.max_selected ≠ 1)
    (hsel : s.selected_indexes = l1 ++ s.current_changing_index :: l2)
    (hlen : s.max_selected.toNat = s.selected_indexes.length)
    (hc : s.current_changing_index ∉ l1)
    (hsole : ¬ (l1 = [] ∧ s.selected_indexes.getD 1 0 = -1)) :
    s.press = ({ s with selected_indexes := l1 ++ l2 ++ [-1] }, []) := by
  have hlen2 : s.max_selected.toNat = l1.length + l2.length + 1 := by
    rw [hlen, hsel]; simp; omega
  have hp : s.selected_indexes.getD l1.length 0 = s.current_changing_index := by
    rw [hsel]; exact getD_length_append_cons l1 l2 _ 0
  have hbefore : ∀ j, 0 ≤ j → j < l1.length →
      s.selected_indexes.getD j 0 ≠ s.current_changing_index := by
    intro j _ hj
    rw [hsel, List.getD_append _ _ _ _ hj]
    exact getD_ne_of_not_mem l1 _ hc j hj
  have hs := pressScan_some s s.max_selected.toNat 0 l1.length (Nat.zero_le _) (by omega)
    hbefore hp
  have hcond : ¬ (l1.length = 0 ∧ s.selected_indexes.getD 1 0 = -1) := by
    intro h
    exact hsole ⟨List.length_eq_zero.mp h.1, h.2⟩
  rw [if_neg hcond] at hs
  have e1 : (s.max_selected - 1 - (l1.length : Int)).toNat = l2.length := by omega
  have e2 : (s.max_selected - 1).toNat = (l1 ++ l2).length := by
    simp only [List.length_append]; omega
  obtain ⟨z, hz⟩ := shiftLeft_eq l2 l1 s.current_changing_index
  rw [e1, e2, hsel, hz, set_length_append_cons (l1 ++ l2) [] z (-1)] at hs
  simp only [Selector.press, if_neg hm, hs]

/-- The rejected branch of `press`: the cursor's index is in cell 0 and cell 1
holds the sentinel. -/
theorem press_sole (s : Selector) (hm : s.max_selected ≠ 1)
    (hlen : 1 ≤ s.max_selected.toNat)
    (h0 : s.selected_indexes.getD 0 0 = s.current_changing_index)
    (h1 : s.selected_indexes.getD 1 0 = -1) :
    s.press = (s, []) := by
  have hs := pressScan_some s s.max_selected.toNat 0 0 (Nat.le_refl 0) (by omega)
    (fun j _ h2 => absurd h2 (Nat.not_lt_zero j)) h0
  rw [if_pos ⟨rfl, h1⟩] at hs
  simp only [Selector.press, if_neg hm, hs]


/-! ## The invariant is established and kept -/

theorem packed_count (a : List Int) (h : Packed a) :
    1 ≤ (a.filter (fun v => v ≠ -1)).length ∧
      (a.filter (fun v => v ≠ -1)).length ≤ a.length := by
  refine ⟨?_, List.length_filter_le _ _⟩
  obtain ⟨pre, m, rfl, hne, hno, _⟩ := h
  have h1 : pre.filter (fun v => v ≠ -1) = pre := by
    apply List.filter_eq_self.mpr
    intro v hv
    have : v ≠ -1 := fun e => hno (e ▸ hv)
    simpa using this
  rw [List.filter_append, h1, List.length_append]
  have : 0 < pre.length := List.length_pos.mpr hne
  omega

theorem new_inv (x_pos y_pos size max count : Int) (hws : 1 ≤ size) (hvc : 1 ≤ count)
    (hmax : 1 ≤ max) : (Selector.new x_pos y_pos size max count).Inv := by
  have hsel := new_selected_indexes x_pos y_pos size max count hmax
  refine ⟨hws, hvc, ?_, ?_, ?_⟩
  · rw [hsel]
    simp only [Selector.new, List.length_cons, List.length_replicate]
    omega
  · simp [Selector.new]
  · rw [hsel]
    exact ⟨[0], (max - 1).toNat, rfl, by simp, by decide, by simp⟩

theorem moveLeft_inv (s : Selector) (h : s.Inv) : s.moveLeft.1.Inv := by
  obtain ⟨h1, h2, h3, h4, h5⟩ := h
  simp only [Selector.moveLeft]
  split_ifs
  · exact ⟨h1, h2, h3, by simp only; omega, h5⟩
  · exact ⟨h1, h2, h3, by simp only; omega, h5⟩

theorem moveRight_inv (s : Selector) (h : s.Inv) : s.moveRight.1.Inv := by
  obtain ⟨h1, h2, h3, h4, h5⟩ := h
  simp only [Selector.moveRight]
  split_ifs
  · exact ⟨h1, h2, h3, by simp only; omega, h5⟩
  · exact ⟨h1, h2, h3, by simp only; omega, h5⟩

theorem moveUp_inv (s : Selector) (h : s.Inv) : s.moveUp.1.Inv := by
  obtain ⟨h1, h2, h3, h4, h5⟩ := h
  simp only [Selector.moveUp]
  exact ⟨h1, h2, h3, by simp only; split_ifs <;> omega, h5⟩

theorem moveDown_inv (s : Selector) (h : s.Inv) : s.moveDown.1.Inv := by
  obtain ⟨h1, h2, h3, h4, h5⟩ := h
  simp only [Selector.moveDown]
  exact ⟨h1, h2, h3, by simp only; split_ifs <;> omega, h5⟩

theorem toNat_ne_one_of_ne_one (n : Int) (h : n ≠ 1) : n.toNat ≠ 1 := by omega

/-- The three outcomes of a multi-select `press` on a state satisfying the
invariant, with the shape of the array in each. -/
theorem press_multi_decomp (s : Selector) (h : s.Inv) (hm : s.max_selected ≠ 1) :
    (s.current_changing_index ∉ s.selected_indexes ∧
      ∃ l z, s.selected_indexes = l ++ [z] ∧
        s.press = ({ s with selected_indexes := s.current_changing_index :: l },
          (if z ≠ -1 then [Draw.unselectIndex z] else []) ++
            [Draw.selectIndex s.current_changing_index])) ∨
    (∃ m, s.selected_indexes = s.current_changing_index :: List.replicate (m + 1) (-1) ∧
      s.press = (s, [])) ∨
    (∃ l1 l2 m, s.selected_indexes =
        l1 ++ s.current_changing_index :: l2 ++ List.replicate m (-1) ∧
      s.current_changing_index ∉ l1 ∧ s.current_changing_index ∉ l2 ∧
      l1 ++ l2 ≠ [] ∧ (-1 : Int) ∉ l1 ++ l2 ∧
      (l1 ++ l2).Nodup ∧
      s.press = ({ s with selected_indexes := l1 ++ l2 ++ List.replicate (m + 1) (-1) }, [])) := by
  obtain ⟨_, _, hlen, hcur, pre, m, hsel, hne, hno, hnd⟩ := h
  have hc1 : s.current_changing_index ≠ -1 := by omega
  have hlen1 : s.max_selected.toNat ≠ 1 := toNat_ne_one_of_ne_one _ hm
  by_cases hmem : s.current_changing_index ∈ pre
  · right
    obtain ⟨l1, l2, hpre⟩ := List.append_of_mem hmem
    subst hpre
    have hcl1 : s.current_changing_index ∉ l1 := by
      intro hin
      have := (List.nodup_append.mp hnd).2.2
      exact this hin (List.mem_cons_self _ _) 
    have hcl2 : s.current_changing_index ∉ l2 :=
      (List.nodup_cons.mp (List.nodup_append.mp hnd).2.1).1
    have hnd2 : (l1 ++ l2).Nodup := by
      have hsub : (l1 ++ l2).Sublist (l1 ++ s.current_changing_index :: l2) :=
        List.Sublist.append_left (List.sublist_cons_self _ _) l1
      exact hnd.sublist hsub
    have hno2 : (-1 : Int) ∉ l1 ++ l2 := by
      intro hin
      apply hno
      rcases List.mem_append.mp hin with h1 | h2
      · exact List.mem_append_left _ h1
      · exact List.mem_append_right _ (List.mem_cons_of_mem _ h2)
    have hsel2 : s.selected_indexes =
        l1 ++ s.current_changing_index :: (l2 ++ List.replicate m (-1)) := by
      rw [hsel]; simp
    by_cases hso : l1 = [] ∧ s.selected_indexes.getD 1 0 = -1
    · left
      obtain ⟨hl1, hg⟩ := hso
      subst hl1
      have hl2 : l2 = [] := by
        cases l2 with
        | nil => rfl
        | cons b t =>
          exfalso
          rw [hsel2] at hg
          simp at hg
          exact hno (by simp [hg])
      subst hl2
      have hm1 : m ≠ 0 := by
        intro h0
        apply hlen1
        rw [hlen, hsel, h0]
        rfl
      obtain ⟨k, rfl⟩ := Nat.exists_eq_succ_of_ne_zero hm1
      refine ⟨k, by simpa using hsel, ?_⟩
      exact press_sole s hm (by rw [hlen, hsel]; simp) (by rw [hsel2]; rfl) hg
    · right
      refine ⟨l1, l2, m, hsel, hcl1, hcl2, ?_, hno2, hnd2, ?_⟩
      · intro hnil
        apply hso
        have hl1 : l1 = [] := (List.append_eq_nil.mp hnil).1
        have hl2 : l2 = [] := (List.append_eq_nil.mp hnil).2
        subst hl1 hl2
        refine ⟨rfl, ?_⟩
        cases m with
        | zero => exact absurd (by rw [hlen, hsel]; rfl) hlen1
        | succ k => rw [hsel]; rfl
      · rw [press_remove s l1 (l2 ++ List.replicate m (-1)) hm hsel2 hlen hcl1 hso]
        simp [List.replicate_succ', List.append_assoc]
  · left
    have hnot : s.current_changing_index ∉ s.selected_indexes := by
      rw [hsel]
      intro hin
      rcases List.mem_append.mp hin with h1 | h2
      · exact hmem h1
      · exact hc1 (List.eq_of_mem_replicate h2)
    refine ⟨hnot, ?_⟩
    have hne2 : s.selected_indexes ≠ [] := by
      rw [hsel]; simp [hne]
    rcases List.eq_nil_or_concat s.selected_indexes with hnil | ⟨l, z, hlz⟩
    · exact absurd hnil hne2
    · rw [List.concat_eq_append] at hlz
      exact ⟨l, z, hlz, press_absent s l z hm hlz hlen hnot⟩


theorem press_single (s : Selector) (hm : s.max_selected = 1) :
    s.press = ({ s with selected_indexes := s.selected_indexes.set 0 s.current_changing_index },
      [Draw.unselectIndex (s.selected_indexes.getD 0 0),
       Draw.selectIndex s.current_changing_index]) := by
  simp only [Selector.press, if_pos hm]

theorem press_inv (s : Selector) (h : s.Inv) : s.press.1.Inv := by
  by_cases hm : s.max_selected = 1
  · obtain ⟨h1, h2, hlen, hcur, _⟩ := h
    rw [press_single s hm]
    have hl : s.selected_indexes.length = 1 := by rw [← hlen, hm]; rfl
    obtain ⟨v, hv⟩ := List.length_eq_one.mp hl
    refine ⟨h1, h2, by simpa using hlen, hcur, ?_⟩
    simp only [hv, List.set_cons_zero]
    exact ⟨[s.current_changing_index], 0, rfl, by simp, by simp; omega, by simp⟩
  · have hc1 : s.current_changing_index ≠ -1 := by have := h.cur; omega
    rcases press_multi_decomp s h hm with
      ⟨hnot, l, z, hlz, hp⟩ | ⟨m, _, hp⟩ | ⟨l1, l2, m, hsel, _, _, hne, hno, hnd, hp⟩
    · obtain ⟨h1, h2, hlen, hcur, pre, m, hsel, hne, hno, hnd⟩ := h
      rw [hp]
      refine ⟨h1, h2, by simp only [List.length_cons]; rw [hlen, hlz]; simp, hcur, ?_⟩
      simp only
      have hcl : s.current_changing_index ∉ l := by
        intro hin; apply hnot; rw [hlz]; exact List.mem_append_left _ hin
      cases m with
      | zero =>
        simp only [List.replicate_zero, List.append_nil] at hsel
        have hpre : pre = l ++ [z] := by rw [← hsel, hlz]
        subst hpre
        refine ⟨s.current_changing_index :: l, 0, by simp, by simp, ?_, ?_⟩
        · intro hin
          rcases List.mem_cons.mp hin with e | hin2
          · exact hc1 e.symm
          · exact hno (List.mem_append_left _ hin2)
        · exact List.nodup_cons.mpr ⟨hcl, (List.nodup_append.mp hnd).1⟩
      | succ k =>
        have hl : l = pre ++ List.replicate k (-1) := by
          have e : l ++ [z] = (pre ++ List.replicate k (-1)) ++ [-1] := by
            rw [← hlz, hsel, List.replicate_succ', List.append_assoc]
          exact List.append_inj_left' e rfl
        subst hl
        refine ⟨s.current_changing_index :: pre, k, by simp, by simp, ?_, ?_⟩
        · intro hin
          rcases List.mem_cons.mp hin with e | hin2
          · exact hc1 e.symm
          · exact hno hin2
        · exact List.nodup_cons.mpr
            ⟨fun hin => hcl (List.mem_append_left _ hin), hnd⟩
    · rw [hp]; exact h
    · obtain ⟨h1, h2, hlen, hcur, _⟩ := h
      rw [hp]
      refine ⟨h1, h2, ?_, hcur, l1 ++ l2, m + 1, rfl, hne, hno, hnd⟩
      rw [hlen, hsel]
      simp only [List.length_append, List.length_cons, List.length_replicate]
      omega

theorem step_inv (s : Selector) (h : s.Inv) (o : Op) : (s.step o).1.Inv := by
  cases o
  · exact press_inv s h
  · exact moveLeft_inv s h
  · exact moveRight_inv s h
  · exact moveUp_inv s h
  · exact moveDown_inv s h

theorem run_inv (s : Selector) (h : s.Inv) (ops : List Op) : (s.run ops).Inv := by
  induction ops generalizing s with
  | nil => exact h
  | cons o ops ih => exact ih _ (step_inv s h o)

/-- An early return of the search loop of `press` has written no member other
than the array. -/
theorem pressScan_frame (s : Selector) (n i : Nat) (r : Selector × List Draw)
    (h : pressScan s n i = some r) :
    r.1.max_selected = s.max_selected ∧ r.1.window_size = s.window_size ∧
    r.1.value_count = s.value_count ∧
    r.1.current_changing_index = s.current_changing_index := by
  induction n generalizing i with
  | zero => simp [pressScan] at h
  | succ n ih =>
    simp only [pressScan] at h
    split_ifs at h
    · cases h; exact ⟨rfl, rfl, rfl, rfl⟩
    · cases h; exact ⟨rfl, rfl, rfl, rfl⟩
    · exact ih (i + 1) h

/-- Method `press` writes no member other than the array. -/
theorem press_frame (s : Selector) :
    s.press.1.max_selected = s.max_selected ∧ s.press.1.window_size = s.window_size ∧
    s.press.1.value_count = s.value_count ∧
    s.press.1.current_changing_index = s.current_changing_index := by
  by_cases hm : s.max_selected = 1
  · rw [press_single s hm]
    exact ⟨rfl, rfl, rfl, rfl⟩
  · simp only [Selector.press, if_neg hm]
    cases hscan : pressScan s s.max_selected.toNat 0 with
    | none => exact ⟨rfl, rfl, rfl, rfl⟩
    | some r => exact pressScan_frame s _ 0 r hscan

theorem step_bounds (s : Selector) (o : Op) :
    (s.step o).1.max_selected = s.max_selected ∧ (s.step o).1.window_size = s.window_size ∧
    (s.step o).1.value_count = s.value_count := by
  cases o
  · exact ⟨(press_frame s).1, (press_frame s).2.1, (press_frame s).2.2.1⟩
  · simp only [Selector.step, Selector.moveLeft]; split_ifs <;> exact ⟨rfl, rfl, rfl⟩
  · simp only [Selector.step, Selector.moveRight]; split_ifs <;> exact ⟨rfl, rfl, rfl⟩
  · exact ⟨rfl, rfl, rfl⟩
  · exact ⟨rfl, rfl, rfl⟩

theorem run_bounds (s : Selector) (ops : List Op) :
    (s.run ops).max_selected = s.max_selected ∧ (s.run ops).window_size = s.window_size ∧
    (s.run ops).value_count = s.value_count := by
  induction ops generalizing s with
  | nil => exact ⟨rfl, rfl, rfl⟩
  | cons o ops ih =>
    obtain ⟨h1, h2, h3⟩ := ih (s.step o).1
    obtain ⟨g1, g2, g3⟩ := step_bounds s o
    exact ⟨h1.trans g1, h2.trans g2, h3.trans g3⟩

theorem step_selected_of_ne_press (s : Selector) (o : Op) (h : o ≠ Op.press) :
    (s.step o).1.selected_indexes = s.selected_indexes := by
  cases o
  · exact absurd rfl h
  · simp only [Selector.step, Selector.moveLeft]; split_ifs <;> rfl
  · simp only [Selector.step, Selector.moveRight]; split_ifs <;> rfl
  · rfl
  · rfl

/-! ## Selection arity -/

/-- C1: a Selector built with `window_size >= 1`, `value_count >= 1` and
`max_selected > 1` has, after any finite sequence of `press`, `moveLeft`,
`moveRight`, `moveUp` and `moveDown` calls, at least one and at most
`max_selected` entries of `selected_indexes` other than the sentinel -1. -/
theorem multi_select_count_bounds (x_pos y_pos size max count : Int) (hws : 1 ≤ size)
    (hvc : 1 ≤ count) (hmax : 1 < max) (ops : List Op) :
    1 ≤ ((Selector.new x_pos y_pos size max count).run ops).selectedCount ∧
    (((Selector.new x_pos y_pos size max count).run ops).selectedCount : Int) ≤ max := by
  have hinv := run_inv _ (new_inv x_pos y_pos size max count hws hvc (by omega)) ops
  have hb := (run_bounds (Selector.new x_pos y_pos size max count) ops).1
  obtain ⟨h1, h2⟩ := packed_count _ hinv.packed
  have hlen := hinv.len
  rw [hb] at hlen
  have hm : (Selector.new x_pos y_pos size max count).max_selected = max := rfl
  rw [hm] at hlen
  simp only [Selector.selectedCount]
  exact ⟨h1, by omega⟩

theorem multi_select_count_bounds_witness :
    1 ≤ ((Selector.new 0 3 3 2 7).run
      [Op.press, Op.moveRight, Op.press, Op.moveDown, Op.press, Op.press]).selectedCount ∧
    (((Selector.new 0 3 3 2 7).run
      [Op.press, Op.moveRight, Op.press, Op.moveDown, Op.press, Op.press]).selectedCount : Int)
      ≤ 2 :=
  multi_select_count_bounds 0 3 3 2 7 (by decide) (by decide) (by decide)
    [Op.press, Op.moveRight, Op.press, Op.moveDown, Op.press, Op.press]

theorem single_select_run (s : Selector) (d : Int) (h : s.Inv) (hm : s.max_selected = 1)
    (hsel : s.selected_indexes = [d]) (hd : 0 ≤ d) (ops : List Op) :
    (s.run ops).selected_indexes = [lastPressCursor s d ops] ∧
      0 ≤ lastPressCursor s d ops := by
  induction ops generalizing s d with
  | nil => exact ⟨hsel, hd⟩
  | cons o ops ih =>
    simp only [Selector.run, lastPressCursor]
    have hinv := step_inv s h o
    have hm2 : (s.step o).1.max_selected = 1 := (step_bounds s o).1.trans hm
    by_cases ho : o = Op.press
    · subst ho
      rw [if_pos rfl]
      refine ih _ _ hinv hm2 ?_ h.cur
      simp only [Selector.step, press_single s hm, hsel, List.set_cons_zero]
    · rw [if_neg ho]
      exact ih _ _ hinv hm2 ((step_selected_of_ne_press s o ho).trans hsel) hd

/-- C2: a Selector built with `window_size >= 1`, `value_count >= 1` and
`max_selected == 1` has, after any finite sequence of `press` and cursor-move
calls, a one-cell selection array whose entry is not the sentinel and equals
the cursor value at the most recent `press` (0 when `press` was never called);
so exactly one option is selected. -/
theorem single_select_exactly_one (x_pos y_pos size count : Int) (hws : 1 ≤ size)
    (hvc : 1 ≤ count) (ops : List Op) :
    ((Selector.new x_pos y_pos size 1 count).run ops).selected_indexes =
      [lastPressCursor (Selector.new x_pos y_pos size 1 count) 0 ops] ∧
    lastPressCursor (Selector.new x_pos y_pos size 1 count) 0 ops ≠ -1 ∧
    ((Selector.new x_pos y_pos size 1 count).run ops).selectedCount = 1 := by
  obtain ⟨h1, h2⟩ := single_select_run (Selector.new x_pos y_pos size 1 count) 0
    (new_inv x_pos y_pos size 1 count hws hvc (by decide)) rfl
    (new_selected_indexes x_pos y_pos size 1 count (by decide)) (by decide) ops
  have hne : lastPressCursor (Selector.new x_pos y_pos size 1 count) 0 ops ≠ -1 := by omega
  refine ⟨h1, hne, ?_⟩
  simp only [Selector.selectedCount, h1]
  simp [hne]

theorem single_select_exactly_one_witness :
    ((Selector.new 0 3 3 1 7).run [Op.moveRight, Op.press, Op.moveRight]).selected_indexes =
      [lastPressCursor (Selector.new 0 3 3 1 7) 0 [Op.moveRight, Op.press, Op.moveRight]] ∧
    lastPressCursor (Selector.new 0 3 3 1 7) 0 [Op.moveRight, Op.press, Op.moveRight] ≠ -1 ∧
    ((Selector.new 0 3 3 1 7).run [Op.moveRight, Op.press, Op.moveRight]).selectedCount = 1 :=
  single_select_exactly_one 0 3 3 7 (by decide) (by decide)
    [Op.moveRight, Op.press, Op.moveRight]

/-! ## What `press` does to the array -/

theorem filter_packed (pre : List Int) (m : Nat) (hno : (-1 : Int) ∉ pre) :
    (pre ++ List.replicate m (-1)).filter (fun v => v ≠ -1) = pre := by
  have h1 : pre.filter (fun v => v ≠ -1) = pre := by
    apply List.filter_eq_self.mpr
    intro v hv
    have : v ≠ -1 := fun e => hno (e ▸ hv)
    simpa using this
  have h2 : (List.replicate m (-1 : Int)).filter (fun v => v ≠ -1) = [] := by
    apply List.filter_eq_nil_iff.mpr
    intro v hv
    simp [List.eq_of_mem_replicate hv]
  rw [List.filter_append, h1, h2, List.append_nil]

/-- The removal and the rejected removal on a state satisfying the invariant. -/
theorem press_present_of_inv (s : Selector) (h : s.Inv) (hm : s.max_selected ≠ 1)
    (hc : s.current_changing_index ∈ s.selected_indexes) :
    (s.selectedCount ≠ 1 →
      s.press = ({ s with selected_indexes :=
        s.selected_indexes.erase s.current_changing_index ++ [-1] }, []) ∧
      s.current_changing_index ∉ s.press.1.selected_indexes ∧
      s.press.1.selectedCount + 1 = s.selectedCount) ∧
    (s.selectedCount = 1 → s.press = (s, [])) := by
  have hc1 : s.current_changing_index ≠ -1 := by have := h.cur; omega
  rcases press_multi_decomp s h hm with
    ⟨hnot, _⟩ | ⟨m, hsel, hp⟩ | ⟨l1, l2, m, hsel, hcl1, hcl2, hne, hno, hnd, hp⟩
  · exact absurd hc hnot
  · have hcount : s.selectedCount = 1 := by
      have := filter_packed [s.current_changing_index] (m + 1) (by simpa using hc1.symm)
      simp only [Selector.selectedCount, hsel]
      rw [List.singleton_append] at this
      rw [this]
      rfl
    exact ⟨fun hn => absurd hcount hn, fun _ => hp⟩
  · have hno3 : (-1 : Int) ∉ l1 ++ s.current_changing_index :: l2 := by
      intro hin
      rcases List.mem_append.mp hin with h1 | h2
      · exact hno (List.mem_append_left _ h1)
      · rcases List.mem_cons.mp h2 with e | h3
        · exact hc1 e.symm
        · exact hno (List.mem_append_right _ h3)
    have hcount : s.selectedCount = l1.length + l2.length + 1 := by
      simp only [Selector.selectedCount, hsel]
      rw [filter_packed _ m hno3]
      simp only [List.length_append, List.length_cons]
      omega
    have hpos : 0 < (l1 ++ l2).length := List.length_pos.mpr hne
    rw [List.length_append] at hpos
    have herase : s.selected_indexes.erase s.current_changing_index ++ [-1] =
        l1 ++ l2 ++ List.replicate (m + 1) (-1) := by
      rw [hsel, List.append_assoc, List.erase_append_right _ hcl1, List.cons_append,
        List.erase_cons_head, List.replicate_succ']
      simp only [List.append_assoc]
    refine ⟨fun _ => ⟨by rw [hp, herase], ?_, ?_⟩, fun h1 => by omega⟩
    · rw [hp]
      simp only
      intro hin
      rcases List.mem_append.mp hin with h1 | h2
      · rcases List.mem_append.mp h1 with h3 | h4
        · exact hcl1 h3
        · exact hcl2 h4
      · exact hc1 (List.eq_of_mem_replicate h2)
    · rw [hp, hcount]
      simp only [Selector.selectedCount]
      rw [filter_packed _ (m + 1) hno]
      simp only [List.length_append]

/-- C4: in a state reached from the construction of a multi-select Selector
(`window_size >= 1`, `value_count >= 1`, `max_selected > 1`) by any finite
sequence of commands, with the cursor's index in `selected_indexes`: when it
is not the only entry, `press` removes it, so that the array becomes the old
one with that entry cut out, later entries one cell to the left in the same
order, and a sentinel -1 at the end, the cursor's index is no longer in it and
one entry fewer is selected; when it is the only entry, `press` leaves the
whole state as it is. -/
theorem press_selected_removes_or_rejects (x_pos y_pos size max count : Int) (hws : 1 ≤ size)
    (hvc : 1 ≤ count) (hmax : 1 < max) (ops : List Op) (s : Selector)
    (hs : s = (Selector.new x_pos y_pos size max count).run ops)
    (hc : s.current_changing_index ∈ s.selected_indexes) :
    (s.selectedCount ≠ 1 →
      s.press.1 = { s with selected_indexes :=
        s.selected_indexes.erase s.current_changing_index ++ [-1] } ∧
      s.current_changing_index ∉ s.press.1.selected_indexes ∧
      s.press.1.selectedCount + 1 = s.selectedCount) ∧
    (s.selectedCount = 1 →
      s.press.1 = s ∧ s.press.1.selected_indexes = s.selected_indexes) := by
  have hinv : s.Inv := by
    rw [hs]
    exact run_inv _ (new_inv x_pos y_pos size max count hws hvc (by omega)) ops
  have hm : s.max_selected ≠ 1 := by
    rw [hs, (run_bounds (Selector.new x_pos y_pos size max count) ops).1]
    show max ≠ 1
    omega
  obtain ⟨h1, h2⟩ := press_present_of_inv s hinv hm hc
  refine ⟨fun hn => ?_, fun he => ?_⟩
  · obtain ⟨a, b, c⟩ := h1 hn
    exact ⟨by rw [a], b, c⟩
  · rw [h2 he]
    exact ⟨rfl, rfl⟩

theorem press_selected_removes_or_rejects_witness :
    ((Selector.mk 0 3 0 3 3 1 7 [1, 0, -1]).press.1 = Selector.mk 0 3 0 3 3 1 7 [0, -1, -1] ∧
      (1 : Int) ∉ (Selector.mk 0 3 0 3 3 1 7 [1, 0, -1]).press.1.selected_indexes ∧
      (Selector.mk 0 3 0 3 3 1 7 [1, 0, -1]).press.1.selectedCount + 1 = 2) ∧
    (Selector.mk 0 3 0 3 3 0 7 [0, -1, -1]).press.1 = Selector.mk 0 3 0 3 3 0 7 [0, -1, -1] :=
  ⟨(press_selected_removes_or_rejects 0 3 3 3 7 (by decide) (by decide) (by decide)
      [Op.moveRight, Op.press] (Selector.mk 0 3 0 3 3 1 7 [1, 0, -1]) (by decide)
      (by decide)).1 (by decide),
    ((press_selected_removes_or_rejects 0 3 3 3 7 (by decide) (by decide) (by decide)
      [] (Selector.mk 0 3 0 3 3 0 7 [0, -1, -1]) (by decide) (by decide)).2 (by decide)).1⟩

/-- C5: on a multi-select Selector (`max_selected > 1`, array of `max_selected`
cells) whose array holds no sentinel and does not hold the cursor's index,
`press` makes the array the cursor followed by the old array without its last
entry, and draws exactly two cells: the old last entry unselected, then the
cursor selected.  With `max_selected = 2` and array `[A, B]` the result is
`[cursor, A]`. -/
theorem press_full_evicts_last (s : Selector) (hm : 1 < s.max_selected)
    (hlen : s.max_selected.toNat = s.selected_indexes.length)
    (hfull : (-1 : Int) ∉ s.selected_indexes)
    (hc : s.current_changing_index ∉ s.selected_indexes) :
    (∃ l z, s.selected_indexes = l ++ [z] ∧
      s.press = ({ s with selected_indexes := s.current_changing_index :: l },
        [Draw.unselectIndex z, Draw.selectIndex s.current_changing_index])) ∧
    s.press.1.selected_indexes = s.current_changing_index :: s.selected_indexes.dropLast ∧
    (∀ A B, s.selected_indexes = [A, B] →
      s.press.1.selected_indexes = [s.current_changing_index, A] ∧
      s.press.2 = [Draw.unselectIndex B, Draw.selectIndex s.current_changing_index]) := by
  have hne : s.selected_indexes ≠ [] := by
    intro hnil
    rw [hnil] at hlen
    simp at hlen
    omega
  rcases List.eq_nil_or_concat s.selected_indexes with hnil | ⟨l, z, hlz⟩
  · exact absurd hnil hne
  · rw [List.concat_eq_append] at hlz
    have hz : z ≠ -1 := by
      intro e
      apply hfull
      rw [hlz, e]
      simp
    have hp := press_absent s l z (by omega) hlz hlen hc
    rw [if_pos hz] at hp
    refine ⟨⟨l, z, hlz, hp⟩, ?_, ?_⟩
    · rw [hp, hlz, List.dropLast_concat]
    · intro A B hAB
      have e : l ++ [z] = [A] ++ [B] := by rw [← hlz, hAB]; rfl
      have e1 : l = [A] := List.append_inj_left' e rfl
      have e2 : [z] = [B] := List.append_inj_right' e rfl
      have e3 : z = B := by simpa using e2
      rw [hp, e1, e3]
      exact ⟨rfl, rfl⟩

theorem press_full_evicts_last_witness :
    (∃ l z, [(0 : Int), 1] = l ++ [z] ∧
      (Selector.mk 0 3 0 3 2 2 7 [0, 1]).press = (Selector.mk 0 3 0 3 2 2 7 (2 :: l),
        [Draw.unselectIndex z, Draw.selectIndex 2])) ∧
    (Selector.mk 0 3 0 3 2 2 7 [0, 1]).press.1.selected_indexes = [2, 0] ∧
    (∀ A B, [(0 : Int), 1] = [A, B] →
      (Selector.mk 0 3 0 3 2 2 7 [0, 1]).press.1.selected_indexes = [2, A] ∧
      (Selector.mk 0 3 0 3 2 2 7 [0, 1]).press.2 =
        [Draw.unselectIndex B, Draw.selectIndex 2]) :=
  press_full_evicts_last (Selector.mk 0 3 0 3 2 2 7 [0, 1]) (by decide) (by decide)
    (by decide) (by decide)

/-! ## The row move past the last option -/

/-- C3: the Selector built with `window_size = 3`, `value_count = 7` reaches
cursor 4 (in range) by `moveRight`, `moveDown`; one more `moveDown` puts the
cursor at 7, which equals `value_count` and so is not in `[0, value_count)`. -/
theorem moveDown_leaves_cursor_range :
    ((Selector.new 0 3 3 1 7).run [Op.moveRight, Op.moveDown]).current_changing_index = 4 ∧
    ((Selector.new 0 3 3 1 7).run [Op.moveRight, Op.moveDown]).value_count = 7 ∧
    ((Selector.new 0 3 3 1 7).run
      [Op.moveRight, Op.moveDown]).moveDown.1.current_changing_index = 7 ∧
    ((Selector.new 0 3 3 1 7).run [Op.moveRight, Op.moveDown]).moveDown.1.value_count = 7 ∧
    ((Selector.new 0 3 3 1 7).run [Op.moveRight, Op.moveDown]).atBottom.2 = 1 := by
  decide

/-- C6: after `moveRight`, `moveDown`, `moveDown`, `press` on a Selector built
with `window_size = 3`, `value_count = 7`, the first entry of the selection
array is 7, which equals `value_count` and is no option index; this holds for
`max_selected = 1` and for `max_selected = 2`. -/
theorem press_stores_out_of_range_index :
    ((Selector.new 0 3 3 1 7).run
      [Op.moveRight, Op.moveDown, Op.moveDown, Op.press]).selected_indexes = [7] ∧
    ((Selector.new 0 3 3 1 7).run
      [Op.moveRight, Op.moveDown, Op.moveDown, Op.press]).value_count = 7 ∧
    ((Selector.new 0 3 3 2 7).run
      [Op.moveRight, Op.moveDown, Op.moveDown, Op.press]).selected_indexes = [7, 0] ∧
    ((Selector.new 0 3 3 2 7).run
      [Op.moveRight, Op.moveDown, Op.moveDown, Op.press]).value_count = 7 := by
  decide

/-! ## Column moves -/

theorem selectedTest_eq (l2 l1 : List Int) (index : Int) :
    selectedTest (l1 ++ l2) index l2.length l1.length = if index ∈ l2 then 1 else 0 := by
  induction l2 generalizing l1 with
  | nil => simp [selectedTest]
  | cons v t ih =>
    simp only [List.length_cons, selectedTest, getD_length_append_cons]
    by_cases hv : v = index
    · simp [hv]
    · have h := ih (l1 ++ [v])
      simp only [List.length_append, List.length_singleton, List.append_assoc,
        List.singleton_append] at h
      rw [if_neg hv, h]
      have hne : ¬ index = v := fun e => hv e.symm
      simp [hne]

theorem drawItem_eq (s : Selector) (hlen : s.max_selected.toNat = s.selected_indexes.length)
    (index : Int) : s.drawItem index = [Draw.itemCursor index, s.cellStyle index] := by
  have h := selectedTest_eq s.selected_indexes [] index
  simp only [List.nil_append, List.length_nil] at h
  simp only [Selector.drawItem, Selector.cellStyle, hlen, h]
  by_cases hm : index ∈ s.selected_indexes <;> simp [hm]

/-- C11: on a Selector with cursor `c` in `[0, value_count)` (so `value_count >= 1`)
and a selection array of `max_selected` cells, `moveRight` sets the cursor to
`(c + 1) mod value_count` and `moveLeft` to `(c + value_count - 1) mod
value_count`, whatever `window_size` is, and changes no other member; each
first redraws cell `c` and then the cell of the new cursor, each selected
exactly when its index is an entry of `selected_indexes`. -/
theorem moveLeft_moveRight_spec (s : Selector)
    (h0 : 0 ≤ s.current_changing_index) (h1 : s.current_changing_index < s.value_count)
    (hlen : s.max_selected.toNat = s.selected_indexes.length) :
    s.moveRight.1 = { s with current_changing_index :=
      (s.current_changing_index + 1) % s.value_count } ∧
    s.moveRight.2 =
      [Draw.itemCursor s.current_changing_index, s.cellStyle s.current_changing_index,
       Draw.itemCursor ((s.current_changing_index + 1) % s.value_count),
       s.cellStyle ((s.current_changing_index + 1) % s.value_count)] ∧
    s.moveLeft.1 = { s with current_changing_index :=
      (s.current_changing_index + s.value_count - 1) % s.value_count } ∧
    s.moveLeft.2 =
      [Draw.itemCursor s.current_changing_index, s.cellStyle s.current_changing_index,
       Draw.itemCursor ((s.current_changing_index + s.value_count - 1) % s.value_count),
       s.cellStyle ((s.current_changing_index + s.value_count - 1) % s.value_count)] := by
  have hr : s.moveRight.1 = { s with current_changing_index :=
      (s.current_changing_index + 1) % s.value_count } := by
    rw [emod_succ_of_range _ _ h0 h1]
    simp only [Selector.moveRight]
    by_cases hc : s.current_changing_index < s.value_count - 1
    · rw [if_pos hc, if_neg (by omega)]
    · rw [if_neg hc, if_pos (by omega)]
  have hl : s.moveLeft.1 = { s with current_changing_index :=
      (s.current_changing_index + s.value_count - 1) % s.value_count } := by
    rw [emod_pred_of_range _ _ h0 h1]
    simp only [Selector.moveLeft]
    by_cases hc : s.current_changing_index > 0
    · rw [if_pos hc, if_neg (by omega)]
    · rw [if_neg hc, if_pos (by omega)]
  have hr2 : s.moveRight.2 = s.drawItem s.current_changing_index ++
      s.moveRight.1.drawItem s.moveRight.1.current_changing_index := rfl
  have hl2 : s.moveLeft.2 = s.drawItem s.current_changing_index ++
      s.moveLeft.1.drawItem s.moveLeft.1.current_changing_index := rfl
  have key : ∀ c : Int, ({ s with current_changing_index := c } : Selector).drawItem c =
      [Draw.itemCursor c, s.cellStyle c] :=
    fun c => drawItem_eq { s with current_changing_index := c } hlen c
  refine ⟨hr, ?_, hl, ?_⟩
  · rw [hr2, hr, drawItem_eq s hlen, key]
    rfl
  · rw [hl2, hl, drawItem_eq s hlen, key]
    rfl

theorem moveLeft_moveRight_spec_witness :
    (Selector.mk 0 3 0 3 2 6 7 [6, 0]).moveRight.1 = Selector.mk 0 3 0 3 2 ((6 + 1) % 7) 7 [6, 0] ∧
    (Selector.mk 0 3 0 3 2 6 7 [6, 0]).moveRight.2 =
      [Draw.itemCursor 6, (Selector.mk 0 3 0 3 2 6 7 [6, 0]).cellStyle 6,
       Draw.itemCursor ((6 + 1) % 7),
       (Selector.mk 0 3 0 3 2 6 7 [6, 0]).cellStyle ((6 + 1) % 7)] ∧
    (Selector.mk 0 3 0 3 2 6 7 [6, 0]).moveLeft.1 =
      Selector.mk 0 3 0 3 2 ((6 + 7 - 1) % 7) 7 [6, 0] ∧
    (Selector.mk 0 3 0 3 2 6 7 [6, 0]).moveLeft.2 =
      [Draw.itemCursor 6, (Selector.mk 0 3 0 3 2 6 7 [6, 0]).cellStyle 6,
       Draw.itemCursor ((6 + 7 - 1) % 7),
       (Selector.mk 0 3 0 3 2 6 7 [6, 0]).cellStyle ((6 + 7 - 1) % 7)] :=
  moveLeft_moveRight_spec (Selector.mk 0 3 0 3 2 6 7 [6, 0]) (by decide) (by decide)
    (by decide)

/-! ## Cell geometry -/

theorem map_of_pos (x hi lo_out hi_out : Int) (hx : 0 ≤ x) (hhi : 0 < hi)
    (hout : lo_out ≤ hi_out) :
    map x 0 hi lo_out hi_out = some (x * (hi_out - lo_out) / hi + lo_out) := by
  have hne : ¬ hi - 0 = 0 := by omega
  have hnum : 0 ≤ x * (hi_out - lo_out) := Int.mul_nonneg hx (by omega)
  unfold map
  rw [if_neg hne]
  simp only [Int.sub_zero]
  rw [Int.tdiv_eq_ediv hnum (by omega)]

theorem tmod_range (i n : Int) (hi : 0 ≤ i) (hn : 0 < n) :
    i.tmod n = i % n ∧ 0 ≤ i % n ∧ i % n < n :=
  ⟨Int.tmod_eq_emod hi (by omega), Int.emod_nonneg i (by omega), Int.emod_lt_of_pos i hn⟩

theorem column_x_eq (W window_size index : Int) (hws : 2 ≤ window_size)
    (hW : 3 ≤ W - W.tdiv window_size) (hi : 0 ≤ index) :
    column_x W window_size index =
      some (index % window_size * (W - W.tdiv window_size - 3) / (window_size - 1) + 3) := by
  obtain ⟨h1, h2, _⟩ := tmod_range index window_size hi (by omega)
  simp only [column_x, h1]
  exact map_of_pos _ _ _ _ h2 (by omega) hW

/-- C13: with `column_x(i) = map(i mod window_size, 0, window_size - 1, 3,
W - W div window_size)`: for `window_size = 4` and `W = 128`, `column_x(0) = 3`,
`column_x(3) = 96`, and `column_x` is strictly increasing in `i mod 4`; for
every `window_size >= 2` and `W` with `W - W div window_size >= 3`, column 0
maps to 3, column `window_size - 1` maps to `W - W div window_size`, and a
larger or equal column never maps to a smaller position. -/
theorem column_x_spec :
    (column_x 128 4 0 = some 3 ∧ column_x 128 4 3 = some 96 ∧
      ∀ i j : Int, 0 ≤ i → 0 ≤ j → i % 4 < j % 4 →
        ∃ a b, column_x 128 4 i = some a ∧ column_x 128 4 j = some b ∧ a < b) ∧
    (∀ W window_size : Int, 2 ≤ window_size → 3 ≤ W - W.tdiv window_size →
      column_x W window_size 0 = some 3 ∧
      column_x W window_size (window_size - 1) = some (W - W.tdiv window_size) ∧
      ∀ i j : Int, 0 ≤ i → 0 ≤ j → i % window_size ≤ j % window_size →
        ∃ a b, column_x W window_size i = some a ∧ column_x W window_size j = some b ∧
          a ≤ b) := by
  refine ⟨⟨by decide, by decide, ?_⟩, ?_⟩
  · intro i j hi hj hlt
    have e : (128 : Int) - Int.tdiv 128 4 = 96 := by decide
    have hci := column_x_eq 128 4 i (by decide) (by decide) hi
    have hcj := column_x_eq 128 4 j (by decide) (by decide) hj
    rw [e] at hci hcj
    refine ⟨_, _, hci, hcj, ?_⟩
    omega
  · intro W window_size hws hW
    refine ⟨?_, ?_, ?_⟩
    · rw [column_x_eq W window_size 0 hws hW (le_refl 0)]
      simp
    · rw [column_x_eq W window_size (window_size - 1) hws hW (by omega)]
      have hm : (window_size - 1) % window_size = window_size - 1 :=
        Int.emod_eq_of_lt (by omega) (by omega)
      rw [hm, Int.mul_ediv_cancel_left _ (by omega)]
      congr 1
      omega
    · intro i j hi hj hle
      refine ⟨_, _, column_x_eq W window_size i hws hW hi,
        column_x_eq W window_size j hws hW hj, ?_⟩
      have hmul : i % window_size * (W - W.tdiv window_size - 3) ≤
          j % window_size * (W - W.tdiv window_size - 3) :=
        Int.mul_le_mul_of_nonneg_right hle (by omega)
      have := Int.ediv_le_ediv (show (0 : Int) < window_size - 1 by omega) hmul
      omega

/-- C17, as stated: a Selector built with `window_size = 1`, `max = 1`,
`value_count = 1` meets the construction preconditions, yet for its option 0
the divisor `(window_size - 1) - 0` of the column computation is zero and the
computation has no result. -/
theorem column_divisor_zero_for_one_column :
    1 ≤ (Selector.new 0 3 1 1 1).window_size ∧ 1 ≤ (Selector.new 0 3 1 1 1).value_count ∧
    1 ≤ (Selector.new 0 3 1 1 1).max_selected ∧
    (Selector.new 0 3 1 1 1).max_selected ≤ (Selector.new 0 3 1 1 1).value_count ∧
    ((Selector.new 0 3 1 1 1).window_size - 1) - 0 = 0 ∧
    column_x 128 (Selector.new 0 3 1 1 1).window_size 0 = none := by
  decide

/-- C17, amended: for every Selector with `window_size >= 2`, every display
width and every option index, the divisor `(window_size - 1) - 0` of the
column computation used by `drawItem`, `selectIndex`, `unselectIndex` and
`flashSelected` is not zero and the computation has a result. -/
theorem column_defined_from_two_columns (s : Selector) (W index : Int)
    (hws : 2 ≤ s.window_size) :
    (s.window_size - 1) - 0 ≠ 0 ∧ (column_x W s.window_size index).isSome = true := by
  have hne : ¬ s.window_size - 1 - 0 = 0 := by omega
  refine ⟨hne, ?_⟩
  simp only [column_x, map, if_neg hne, Option.isSome_some]

theorem column_defined_from_two_columns_witness :
    ((Selector.new 0 3 3 1 7).window_size - 1) - 0 ≠ 0 ∧
    (column_x 128 (Selector.new 0 3 3 1 7).window_size 6).isSome = true :=
  column_defined_from_two_columns (Selector.new 0 3 3 1 7) 128 6 (by decide)

/-- C15: `display` on the Selector built with `x = 0`, `y = 3`,
`window_size = 3`, `value_count = 7` clears the rectangle from 0 with height
44, that is 31 + 13 * (2 - 1) with the truncated quotient 7 / 3 = 2 and not
the ceiling 3; it then draws option 6, whose cell in row 2 spans 39 to 51 and
so reaches below the cleared area, which ends at 44. -/
theorem display_clears_truncated_rows :
    (Selector.new 0 3 3 1 7).display.2.take 4 =
      [Draw.promptColor, Draw.promptCursor 5 3, Draw.clearArea 0 0 44, Draw.printPrompt] ∧
    (Selector.new 0 3 3 1 7).clearHeight = 31 + 13 * (2 - 1) ∧
    Draw.unselectIndex 6 ∈ (Selector.new 0 3 3 1 7).display.2 ∧
    (Selector.new 0 3 3 1 7).cellTop 6 = 3 + 10 + 13 * 2 ∧
    ¬ ((Selector.new 0 3 3 1 7).cellTop 6 + 12 ≤
      ((Selector.new 0 3 3 1 7).y - 3) + (Selector.new 0 3 3 1 7).clearHeight) := by
  decide

/-! ## The last drawing call of `press` -/

/-- C16, as stated: in two states reached from the construction of a
multi-select Selector, `press` makes no drawing call at all, so its last
drawing call is not `selectIndex(cursor)`: the removal of option 1 from
`[1, 0]`, and the rejected removal of the only entry of `[0, -1]`. -/
theorem press_early_return_draws_nothing :
    ((Selector.new 0 3 3 2 7).run [Op.moveRight, Op.press]).selected_indexes = [1, 0] ∧
    ((Selector.new 0 3 3 2 7).run [Op.moveRight, Op.press]).press.1.selected_indexes =
      [0, -1] ∧
    ((Selector.new 0 3 3 2 7).run [Op.moveRight, Op.press]).press.2 = [] ∧
    ((Selector.new 0 3 3 2 7).run [Op.moveRight, Op.press]).press.2.getLast? ≠
      some (Draw.selectIndex
        ((Selector.new 0 3 3 2 7).run [Op.moveRight, Op.press]).current_changing_index) ∧
    (Selector.new 0 3 3 2 7).press.1.selected_indexes = [0, -1] ∧
    (Selector.new 0 3 3 2 7).press.2 = [] ∧
    (Selector.new 0 3 3 2 7).press.2.getLast? ≠
      some (Draw.selectIndex (Selector.new 0 3 3 2 7).current_changing_index) := by
  decide

/-- C16, amended: in a state reached from the construction of a multi-select
Selector (`window_size >= 1`, `value_count >= 1`, `max_selected > 1`) by any
finite sequence of commands, when the cursor's index is not in the array
(the insertion branch) the last drawing call of `press` is
`selectIndex(cursor)`; when it is in the array (the removal branch and the
rejected sole-entry branch) `press` makes no drawing call. -/
theorem press_last_draw (x_pos y_pos size max count : Int) (hws : 1 ≤ size)
    (hvc : 1 ≤ count) (hmax : 1 < max) (ops : List Op) (s : Selector)
    (hs : s = (Selector.new x_pos y_pos size max count).run ops) :
    (s.current_changing_index ∉ s.selected_indexes →
      s.press.2.getLast? = some (Draw.selectIndex s.current_changing_index)) ∧
    (s.current_changing_index ∈ s.selected_indexes → s.press.2 = []) := by
  have hinv : s.Inv := by
    rw [hs]
    exact run_inv _ (new_inv x_pos y_pos size max count hws hvc (by omega)) ops
  have hm : s.max_selected ≠ 1 := by
    rw [hs, (run_bounds (Selector.new x_pos y_pos size max count) ops).1]
    show max ≠ 1
    omega
  refine ⟨fun hnot => ?_, fun hin => ?_⟩
  · rcases press_multi_decomp s hinv hm with
      ⟨_, l, z, _, hp⟩ | ⟨m, hsel, _⟩ | ⟨l1, l2, m, hsel, _⟩
    · rw [hp]
      simp
    · exact absurd (by rw [hsel]; simp) hnot
    · exact absurd (by rw [hsel]; simp) hnot
  · by_cases hone : s.selectedCount = 1
    · rw [(press_present_of_inv s hinv hm hin).2 hone]
    · rw [((press_present_of_inv s hinv hm hin).1 hone).1]

theorem press_last_draw_witness :
    (Selector.mk 0 3 0 3 2 2 7 [1, 0]).press.2.getLast? = some (Draw.selectIndex 2) ∧
    (Selector.mk 0 3 0 3 2 1 7 [1, 0]).press.2 = [] :=
  ⟨(press_last_draw 0 3 3 2 7 (by decide) (by decide) (by decide)
      [Op.moveRight, Op.press, Op.moveRight] (Selector.mk 0 3 0 3 2 2 7 [1, 0])
      (by decide)).1 (by decide),
    (press_last_draw 0 3 3 2 7 (by decide) (by decide) (by decide)
      [Op.moveRight, Op.press] (Selector.mk 0 3 0 3 2 1 7 [1, 0]) (by decide)).2 (by decide)⟩

/-! ## Shape of the selection array -/

/-- C19: after any finite sequence of commands on a Selector built with
`window_size >= 1`, `value_count >= 1` and `max >= 1`, the array has
`max_selected` cells and there is `k` with `1 <= k <= max_selected` such that
its first `k` entries are pairwise distinct and none is the sentinel -1, and
all its other entries are -1; `k` is the number of selected options, and for
`max_selected > 1` cell 1 holds the sentinel exactly when one option is
selected. -/
theorem selection_packed_distinct (x_pos y_pos size max count : Int) (hws : 1 ≤ size)
    (hvc : 1 ≤ count) (hmax : 1 ≤ max) (ops : List Op) (s : Selector)
    (hs : s = (Selector.new x_pos y_pos size max count).run ops) :
    s.max_selected = max ∧ s.selected_indexes.length = max.toNat ∧
    ∃ k : Nat, 1 ≤ k ∧ (k : Int) ≤ max ∧
      (s.selected_indexes.take k).Nodup ∧
      (∀ v ∈ s.selected_indexes.take k, v ≠ -1) ∧
      s.selected_indexes.drop k = List.replicate (max.toNat - k) (-1) ∧
      s.selectedCount = k ∧
      (1 < max → (s.selected_indexes.getD 1 0 = -1 ↔ k = 1)) := by
  have hinv : s.Inv := by
    rw [hs]
    exact run_inv _ (new_inv x_pos y_pos size max count hws hvc hmax) ops
  have hm : s.max_selected = max := by
    rw [hs, (run_bounds (Selector.new x_pos y_pos size max count) ops).1]
    rfl
  obtain ⟨_, _, hlen, _, pre, m, hsel, hne, hno, hnd⟩ := hinv
  rw [hm] at hlen
  have hpos : 0 < pre.length := List.length_pos.mpr hne
  have hl : max.toNat = pre.length + m := by
    rw [hlen, hsel]; simp
  refine ⟨hm, hlen.symm, pre.length, hpos, by omega, ?_, ?_, ?_, ?_, ?_⟩
  · rw [hsel, List.take_left]; exact hnd
  · rw [hsel, List.take_left]
    intro v hv e
    exact hno (e ▸ hv)
  · rw [hsel, List.drop_left]
    congr 1
    omega
  · simp only [Selector.selectedCount, hsel]
    rw [filter_packed pre m hno]
  · intro h1
    rw [hsel]
    constructor
    · intro hg
      by_contra hk
      have h2 : 1 < pre.length := by omega
      rw [List.getD_append _ _ _ _ h2, List.getD_eq_getElem _ _ h2] at hg
      exact hno (hg ▸ List.getElem_mem h2)
    · intro hk
      obtain ⟨v, hv⟩ := List.length_eq_one.mp hk
      have hm1 : m ≠ 0 := by
        rw [hk] at hl
        omega
      obtain ⟨j, rfl⟩ := Nat.exists_eq_succ_of_ne_zero hm1
      rw [hv]
      rfl

theorem selection_packed_distinct_witness :
    (Selector.mk 0 3 0 3 3 1 7 [1, 0, -1]).max_selected = 3 ∧
    (Selector.mk 0 3 0 3 3 1 7 [1, 0, -1]).selected_indexes.length = (3 : Int).toNat ∧
    ∃ k : Nat, 1 ≤ k ∧ (k : Int) ≤ 3 ∧
      ((Selector.mk 0 3 0 3 3 1 7 [1, 0, -1]).selected_indexes.take k).Nodup ∧
      (∀ v ∈ (Selector.mk 0 3 0 3 3 1 7 [1, 0, -1]).selected_indexes.take k, v ≠ -1) ∧
      (Selector.mk 0 3 0 3 3 1 7 [1, 0, -1]).selected_indexes.drop k =
        List.replicate ((3 : Int).toNat - k) (-1) ∧
      (Selector.mk 0 3 0 3 3 1 7 [1, 0, -1]).selectedCount = k ∧
      ((1 : Int) < 3 →
        ((Selector.mk 0 3 0 3 3 1 7 [1, 0, -1]).selected_indexes.getD 1 0 = -1 ↔ k = 1)) :=
  selection_packed_distinct 0 3 3 3 7 (by decide) (by decide) (by decide)
    [Op.moveRight, Op.press] (Selector.mk 0 3 0 3 3 1 7 [1, 0, -1]) (by decide)

/-! ## Frame conditions -/

/-- C20: in every state, `press` changes neither the cursor nor `window_size`,
`value_count` or `max_selected`; `moveLeft`, `moveRight`, `moveUp` and
`moveDown` do not change the selection array; `flashSelected`, `display`,
`atTop` and `atBottom` change neither the cursor nor the selection array (they
change no member at all). -/
theorem selector_frame (s : Selector) :
    (s.press.1.current_changing_index = s.current_changing_index ∧
      s.press.1.window_size = s.window_size ∧ s.press.1.value_count = s.value_count ∧
      s.press.1.max_selected = s.max_selected) ∧
    (s.moveLeft.1.selected_indexes = s.selected_indexes ∧
      s.moveRight.1.selected_indexes = s.selected_indexes ∧
      s.moveUp.1.selected_indexes = s.selected_indexes ∧
      s.moveDown.1.selected_indexes = s.selected_indexes) ∧
    (s.flashSelected.1 = s ∧ s.display.1 = s ∧ s.atTop.1 = s ∧ s.atBottom.1 = s) ∧
    (s.flashSelected.1.current_changing_index = s.current_changing_index ∧
      s.flashSelected.1.selected_indexes = s.selected_indexes ∧
      s.display.1.current_changing_index = s.current_changing_index ∧
      s.display.1.selected_indexes = s.selected_indexes ∧
      s.atTop.1.current_changing_index = s.current_changing_index ∧
      s.atTop.1.selected_indexes = s.selected_indexes ∧
      s.atBottom.1.current_changing_index = s.current_changing_index ∧
      s.atBottom.1.selected_indexes = s.selected_indexes) := by
  obtain ⟨p1, p2, p3, p4⟩ := press_frame s
  refine ⟨⟨p4, p2, p3, p1⟩, ⟨?_, ?_, rfl, rfl⟩, ⟨rfl, rfl, rfl, rfl⟩,
    ⟨rfl, rfl, rfl, rfl, rfl, rfl, rfl, rfl⟩⟩
  · exact step_selected_of_ne_press s Op.moveLeft (by decide)
  · exact step_selected_of_ne_press s Op.moveRight (by decide)

/-! ## Button: the selector array -/

theorem cell_eq_some_bound (b : Button) (i : Int) (s : Selector) (h : b.cell i = some s) :
    0 ≤ i ∧ i.toNat < b.selectors.length := by
  unfold Button.cell at h
  by_cases hi : 0 ≤ i
  · rw [if_pos hi] at h
    refine ⟨hi, ?_⟩
    by_contra hlt
    rw [List.getD_eq_default _ _ (by omega)] at h
    exact Option.noConfusion h
  · rw [if_neg hi] at h
    exact Option.noConfusion h

theorem cell_store_same (b : Button) (i : Int) (s : Selector) (h0 : 0 ≤ i)
    (h1 : i.toNat < b.selectors.length) : (b.store i s).cell i = some s := by
  simp only [Button.store, Button.cell, if_pos h0]
  rw [List.getD_eq_getElem _ _ (by simpa using h1)]
  simp

theorem cell_store_other (b : Button) (i j : Int) (s : Selector) (h : j ≠ i) :
    (b.store i s).cell j = b.cell j := by
  by_cases hi : 0 ≤ i
  · simp only [Button.store, Button.cell, if_pos hi]
    by_cases hj : 0 ≤ j
    · simp only [if_pos hj]
      have hne : i.toNat ≠ j.toNat := by omega
      simp only [List.getD_eq_getElem?_getD, List.getElem?_set_ne hne]
    · simp only [if_neg hj]
  · simp only [Button.store, if_neg hi]

theorem store_fields (b : Button) (i : Int) (s : Selector) :
    (b.store i s).selector_count = b.selector_count ∧
    (b.store i s).current_selector = b.current_selector ∧
    (b.store i s).selectors.length = b.selectors.length ∧
    (b.store i s).x = b.x ∧ (b.store i s).y = b.y ∧
    (b.store i s).w = b.w ∧ (b.store i s).h = b.h := by
  unfold Button.store
  split_ifs
  · exact ⟨rfl, rfl, by simp, rfl, rfl, rfl, rfl⟩
  · exact ⟨rfl, rfl, rfl, rfl, rfl, rfl, rfl⟩

theorem emod_sub_one_of_range (i n : Int) (h0 : 0 ≤ i) (h1 : i < n) :
    (i - 1) % n = if i = 0 then n - 1 else i - 1 := by
  rw [← emod_pred_of_range i n h0 h1, ← Int.add_emod_self]
  congr 1
  omega

/-- C12: on a Button with `selector_count >= 1`, `current_selector` in
`[0, selector_count)` and active Selector `s`: when `s.atBottom()` is 1,
`subMenuDown` sets `current_selector` to `(current_selector + 1) mod
selector_count`, changes nothing else and draws nothing; otherwise it replaces
the active Selector by `s` after `moveDown` and leaves `current_selector` and
every other Selector as they are.  `subMenuUp` does the same with `atTop()`,
`(current_selector - 1) mod selector_count` and `moveUp`.  In all cases
`current_selector` stays in `[0, selector_count)` and `selector_count` is
kept. -/
theorem subMenu_rows_spec (b : Button) (s : Selector) (hc : 1 ≤ b.selector_count)
    (h0 : 0 ≤ b.current_selector) (h1 : b.current_selector < b.selector_count)
    (hs : b.cell b.current_selector = some s) :
    (s.atBottom.2 = 1 →
      b.subMenuDown = ({ b with current_selector :=
        (b.current_selector + 1) % b.selector_count }, [])) ∧
    (s.atBottom.2 ≠ 1 →
      b.subMenuDown.1.cell b.current_selector = some s.moveDown.1 ∧
      (∀ j, j ≠ b.current_selector → b.subMenuDown.1.cell j = b.cell j) ∧
      b.subMenuDown.1.current_selector = b.current_selector ∧
      b.subMenuDown.2 = s.moveDown.2) ∧
    (s.atTop.2 = 1 →
      b.subMenuUp = ({ b with current_selector :=
        (b.current_selector - 1) % b.selector_count }, [])) ∧
    (s.atTop.2 ≠ 1 →
      b.subMenuUp.1.cell b.current_selector = some s.moveUp.1 ∧
      (∀ j, j ≠ b.current_selector → b.subMenuUp.1.cell j = b.cell j) ∧
      b.subMenuUp.1.current_selector = b.current_selector ∧
      b.subMenuUp.2 = s.moveUp.2) ∧
    (0 ≤ b.subMenuDown.1.current_selector ∧
      b.subMenuDown.1.current_selector < b.subMenuDown.1.selector_count ∧
      b.subMenuDown.1.selector_count = b.selector_count) ∧
    (0 ≤ b.subMenuUp.1.current_selector ∧
      b.subMenuUp.1.current_selector < b.subMenuUp.1.selector_count ∧
      b.subMenuUp.1.selector_count = b.selector_count) := by
  obtain ⟨_, hb⟩ := cell_eq_some_bound b _ s hs
  have hbot : s.atBottom.2 = 1 ∨ s.atBottom.2 = 0 := by
    simp only [Selector.atBottom]; split_ifs <;> simp
  have hd1 : s.atBottom.2 = 1 → b.subMenuDown = ({ b with current_selector :=
      (b.current_selector + 1) % b.selector_count }, []) := by
    intro h
    rw [emod_succ_of_range _ _ h0 h1]
    simp only [Button.subMenuDown, hs, if_pos h]
    by_cases hl : b.current_selector = b.selector_count - 1
    · rw [if_neg (by simpa using hl), if_pos (by omega)]
    · rw [if_pos hl, if_neg (by omega)]
  have hd2 : s.atBottom.2 ≠ 1 →
      b.subMenuDown = (b.store b.current_selector s.moveDown.1, s.moveDown.2) := by
    intro h
    have hz : s.atBottom.2 = 0 := by rcases hbot with h' | h'; exact absurd h' h; exact h'
    simp only [Button.subMenuDown, hs, if_neg h, if_pos hz]
  have hu1 : s.atTop.2 = 1 → b.subMenuUp = ({ b with current_selector :=
      (b.current_selector - 1) % b.selector_count }, []) := by
    intro h
    rw [emod_sub_one_of_range _ _ h0 h1]
    simp only [Button.subMenuUp, hs, if_pos h]
    by_cases hl : b.current_selector = 0
    · rw [if_neg (by simpa using hl), if_pos hl]
    · rw [if_pos hl, if_neg hl]
  have hu2 : s.atTop.2 ≠ 1 →
      b.subMenuUp = (b.store b.current_selector s.moveUp.1, s.moveUp.2) := by
    intro h
    simp only [Button.subMenuUp, hs, if_neg h]
  have hr1 := Int.emod_nonneg (b.current_selector + 1) (show b.selector_count ≠ 0 by omega)
  have hr2 := Int.emod_lt_of_pos (b.current_selector + 1) (show 0 < b.selector_count by omega)
  have hr3 := Int.emod_nonneg (b.current_selector - 1) (show b.selector_count ≠ 0 by omega)
  have hr4 := Int.emod_lt_of_pos (b.current_selector - 1) (show 0 < b.selector_count by omega)
  obtain ⟨f1, f2, _⟩ := store_fields b b.current_selector s.moveDown.1
  obtain ⟨g1, g2, _⟩ := store_fields b b.current_selector s.moveUp.1
  refine ⟨hd1, fun h => ?_, hu1, fun h => ?_, ?_, ?_⟩
  · rw [hd2 h]
    exact ⟨cell_store_same b _ _ h0 hb, fun j hj => cell_store_other b _ j _ hj, f2, rfl⟩
  · rw [hu2 h]
    exact ⟨cell_store_same b _ _ h0 hb, fun j hj => cell_store_other b _ j _ hj, g2, rfl⟩
  · by_cases h : s.atBottom.2 = 1
    · rw [hd1 h]; exact ⟨hr1, hr2, rfl⟩
    · rw [hd2 h]; exact ⟨by rw [f2]; exact h0, by rw [f2, f1]; exact h1, f1⟩
  · by_cases h : s.atTop.2 = 1
    · rw [hu1 h]; exact ⟨hr3, hr4, rfl⟩
    · rw [hu2 h]; exact ⟨by rw [g2]; exact h0, by rw [g2, g1]; exact h1, g1⟩

theorem subMenu_rows_spec_witness :
    (sampleButton 4 0).subMenuDown =
      ({ sampleButton 4 0 with current_selector := (0 + 1) % 2 }, []) ∧
    (sampleButton 0 0).subMenuDown.1.cell 0 = some (Selector.mk 0 3 0 3 1 0 7 [0]).moveDown.1 ∧
    (sampleButton 0 0).subMenuUp =
      ({ sampleButton 0 0 with current_selector := (0 - 1) % 2 }, []) ∧
    (sampleButton 4 0).subMenuUp.1.cell 0 = some (Selector.mk 0 3 0 3 1 4 7 [0]).moveUp.1 :=
  ⟨(subMenu_rows_spec (sampleButton 4 0) (Selector.mk 0 3 0 3 1 4 7 [0]) (by decide)
      (by decide) (by decide) (by decide)).1 (by decide),
    ((subMenu_rows_spec (sampleButton 0 0) (Selector.mk 0 3 0 3 1 0 7 [0]) (by decide)
      (by decide) (by decide) (by decide)).2.1 (by decide)).1,
    (subMenu_rows_spec (sampleButton 0 0) (Selector.mk 0 3 0 3 1 0 7 [0]) (by decide)
      (by decide) (by decide) (by decide)).2.2.1 (by decide),
    ((subMenu_rows_spec (sampleButton 4 0) (Selector.mk 0 3 0 3 1 4 7 [0]) (by decide)
      (by decide) (by decide) (by decide)).2.2.2.1 (by decide)).1⟩

/-! ## Button: adding selectors -/

theorem addSelector_full (MAX_SELECTORS : Int) (b : Button) (window_size max vals : Int)
    (h : ¬ b.selector_count < MAX_SELECTORS) :
    Button.addSelector MAX_SELECTORS b window_size max vals = b := by
  simp only [Button.addSelector, if_neg h]

theorem addSelector_room (MAX_SELECTORS : Int) (b : Button) (window_size max vals : Int)
    (h : b.selector_count < MAX_SELECTORS) :
    Button.addSelector MAX_SELECTORS b window_size max vals =
      ({ b with selector_count := b.selector_count + 1 } : Button).store b.selector_count
        (Selector.new 0 ((b.selector_count + 1) * 28 - 25) window_size max vals) := by
  simp only [Button.addSelector, if_pos h]
  congr 1
  omega

/-- One `addSelector` call on a Button whose array has `MAX_SELECTORS` cells
and whose count is not negative. -/
theorem addSelector_step (MAX_SELECTORS : Int) (b : Button) (window_size max vals : Int)
    (h0 : 0 ≤ b.selector_count) (hcap : b.selectors.length = MAX_SELECTORS.toNat) :
    (b.selector_count < MAX_SELECTORS →
      (Button.addSelector MAX_SELECTORS b window_size max vals).selector_count =
        b.selector_count + 1 ∧
      (Button.addSelector MAX_SELECTORS b window_size max vals).cell b.selector_count =
        some (Selector.new 0 (28 * (b.selector_count + 1) - 25) window_size max vals) ∧
      (∀ j, j ≠ b.selector_count →
        (Button.addSelector MAX_SELECTORS b window_size max vals).cell j = b.cell j) ∧
      (Button.addSelector MAX_SELECTORS b window_size max vals).current_selector =
        b.current_selector ∧
      (Button.addSelector MAX_SELECTORS b window_size max vals).selectors.length =
        b.selectors.length) ∧
    (¬ b.selector_count < MAX_SELECTORS →
      Button.addSelector MAX_SELECTORS b window_size max vals = b) := by
  refine ⟨fun h => ?_, addSelector_full MAX_SELECTORS b window_size max vals⟩
  rw [addSelector_room MAX_SELECTORS b window_size max vals h]
  obtain ⟨f1, f2, f3, _⟩ := store_fields ({ b with selector_count := b.selector_count + 1 })
    b.selector_count (Selector.new 0 ((b.selector_count + 1) * 28 - 25) window_size max vals)
  have hy : (b.selector_count + 1) * 28 - 25 = 28 * (b.selector_count + 1) - 25 := by ring
  refine ⟨f1, ?_, fun j hj => ?_, f2, f3⟩
  · rw [← hy]
    exact cell_store_same _ _ _ h0 (by show b.selector_count.toNat < b.selectors.length; omega)
  · exact cell_store_other _ _ j _ hj

/-- A sequence of `addSelector` calls: the count grows by one per call until it
reaches `MAX_SELECTORS`, earlier cells are kept, and the call number `k`
(counted from 0) that still finds room fills cell `selector_count + k`. -/
theorem addAll_spec (MAX_SELECTORS : Int) (adds : List SelectorArgs) (b : Button)
    (h0 : 0 ≤ b.selector_count) (h1 : b.selector_count ≤ MAX_SELECTORS)
    (hcap : b.selectors.length = MAX_SELECTORS.toNat) :
    (Button.addAll MAX_SELECTORS b adds).selector_count =
      min (b.selector_count + adds.length) MAX_SELECTORS ∧
    (Button.addAll MAX_SELECTORS b adds).selectors.length = MAX_SELECTORS.toNat ∧
    (Button.addAll MAX_SELECTORS b adds).current_selector = b.current_selector ∧
    (∀ j, j < b.selector_count → (Button.addAll MAX_SELECTORS b adds).cell j = b.cell j) ∧
    (∀ j, b.selector_count + adds.length ≤ j →
      (Button.addAll MAX_SELECTORS b adds).cell j = b.cell j) ∧
    (∀ (k : Nat) (a : SelectorArgs), adds.get? k = some a →
      b.selector_count + k < MAX_SELECTORS →
      (Button.addAll MAX_SELECTORS b adds).cell (b.selector_count + k) =
        some (Selector.new 0 (28 * (b.selector_count + k + 1) - 25)
          a.window_size a.max a.vals)) := by
  induction adds generalizing b with
  | nil =>
    refine ⟨?_, hcap, rfl, fun _ _ => rfl, fun _ _ => rfl, ?_⟩
    · simp only [Button.addAll, List.length_nil, Nat.cast_zero, Int.add_zero]
      omega
    · intro k a hk
      simp at hk
  | cons a as ih =>
    simp only [Button.addAll, List.length_cons]
    obtain ⟨hroom, hfull⟩ := addSelector_step MAX_SELECTORS b a.window_size a.max a.vals h0 hcap
    by_cases hlt : b.selector_count < MAX_SELECTORS
    · obtain ⟨c1, c2, c3, c4, c5⟩ := hroom hlt
      obtain ⟨i1, i2, i3, i4, i5, i6⟩ := ih
        (Button.addSelector MAX_SELECTORS b a.window_size a.max a.vals)
        (by omega) (by omega) (by rw [c5]; exact hcap)
      rw [c1] at i1 i4 i5 i6
      refine ⟨?_, i2, i3.trans c4, ?_, ?_, ?_⟩
      · rw [i1]; push_cast; congr 1; omega
      · intro j hj
        rw [i4 j (by omega)]
        exact c3 j (by omega)
      · intro j hj
        push_cast at hj
        rw [i5 j (by omega)]
        exact c3 j (by omega)
      · intro k a' hk hkm
        cases k with
        | zero =>
          simp only [List.get?_cons_zero, Option.some.injEq] at hk
          subst hk
          simp only [Nat.cast_zero, Int.add_zero]
          rw [i4 _ (by omega)]
          exact c2
        | succ n =>
          simp only [List.get?_cons_succ] at hk
          have := i6 n a' hk (by push_cast at hkm; omega)
          have e : b.selector_count + ((n + 1 : Nat) : Int) = b.selector_count + 1 + n := by
            push_cast; omega
          rw [e]
          exact this
    · rw [hfull hlt]
      obtain ⟨i1, i2, i3, i4, i5, i6⟩ := ih b h0 h1 hcap
      refine ⟨?_, i2, i3, i4, ?_, ?_⟩
      · rw [i1]; push_cast; omega
      · intro j hj
        by_cases hj2 : b.selector_count + (as.length : Int) ≤ j
        · exact i5 j hj2
        · have hnone : ∀ (c : Button), c.selectors.length = MAX_SELECTORS.toNat →
              c.cell j = none := by
            intro c hc
            push_cast at hj
            have : MAX_SELECTORS.toNat ≤ j.toNat := by omega
            simp only [Button.cell]
            split_ifs
            · exact List.getD_eq_default _ _ (by omega)
            · rfl
          rw [hnone _ i2, hnone _ hcap]
      · intro k a' hk hkm
        omega

/-- C14: on a Button whose array has `MAX_SELECTORS` cells and whose count is
not negative, `addSelector` with `max >= 1`: when `selector_count <
MAX_SELECTORS` it raises `selector_count` by exactly 1 and stores in the new
last cell a fresh Selector (cursor 0, selection array `[0, -1, ..., -1]`) with
`x = 0` and `y = 28 * n - 25`, `n` the new count, leaving every other cell and
`current_selector` as they are; otherwise it leaves the whole Button as it
is.  So a count that is at most `MAX_SELECTORS` stays so, and after any
sequence of calls on a new Button the count is at most `MAX_SELECTORS` and the
call number `k` (from 0) below `MAX_SELECTORS` has filled cell `k` with
`y = 28 * (k + 1) - 25`. -/
theorem addSelector_spec (MAX_SELECTORS : Int) (b : Button) (window_size max vals : Int)
    (h0 : 0 ≤ b.selector_count) (hcap : b.selectors.length = MAX_SELECTORS.toNat)
    (hmax : 1 ≤ max) :
    (b.selector_count < MAX_SELECTORS →
      (Button.addSelector MAX_SELECTORS b window_size max vals).selector_count =
        b.selector_count + 1 ∧
      (∃ fresh : Selector,
        (Button.addSelector MAX_SELECTORS b window_size max vals).cell b.selector_count =
          some fresh ∧
        fresh = Selector.new 0 (28 * (b.selector_count + 1) - 25) window_size max vals ∧
        fresh.x = 0 ∧ fresh.y = 28 * (b.selector_count + 1) - 25 ∧
        fresh.current_changing_index = 0 ∧
        fresh.selected_indexes = 0 :: List.replicate (max - 1).toNat (-1)) ∧
      (∀ j, j ≠ b.selector_count →
        (Button.addSelector MAX_SELECTORS b window_size max vals).cell j = b.cell j) ∧
      (Button.addSelector MAX_SELECTORS b window_size max vals).current_selector =
        b.current_selector) ∧
    (b.selector_count = MAX_SELECTORS →
      Button.addSelector MAX_SELECTORS b window_size max vals = b) ∧
    (b.selector_count ≤ MAX_SELECTORS →
      (Button.addSelector MAX_SELECTORS b window_size max vals).selector_count ≤
        MAX_SELECTORS) ∧
    (∀ (x_pos y_pos width height : Int) (adds : List SelectorArgs), 0 ≤ MAX_SELECTORS →
      (Button.addAll MAX_SELECTORS (Button.new x_pos y_pos width height MAX_SELECTORS)
        adds).selector_count ≤ MAX_SELECTORS ∧
      ∀ (k : Nat) (a : SelectorArgs), adds.get? k = some a → (k : Int) < MAX_SELECTORS →
        (Button.addAll MAX_SELECTORS (Button.new x_pos y_pos width height MAX_SELECTORS)
          adds).cell k =
          some (Selector.new 0 (28 * ((k : Int) + 1) - 25) a.window_size a.max a.vals)) := by
  obtain ⟨hroom, hfull⟩ := addSelector_step MAX_SELECTORS b window_size max vals h0 hcap
  refine ⟨fun h => ?_, fun h => hfull (by omega), fun h => ?_, ?_⟩
  · obtain ⟨c1, c2, c3, c4, _⟩ := hroom h
    exact ⟨c1, ⟨_, c2, rfl, rfl, rfl, rfl, new_selected_indexes _ _ _ _ _ hmax⟩, c3, c4⟩
  · by_cases hlt : b.selector_count < MAX_SELECTORS
    · rw [(hroom hlt).1]; omega
    · rw [hfull hlt]; exact h
  · intro x_pos y_pos width height adds hM
    obtain ⟨i1, _, _, _, _, i6⟩ := addAll_spec MAX_SELECTORS adds
      (Button.new x_pos y_pos width height MAX_SELECTORS) (le_refl 0) hM
      (by simp [Button.new])
    refine ⟨by rw [i1]; exact min_le_right _ _, fun k a hk hkm => ?_⟩
    have := i6 k a hk (by simpa [Button.new] using hkm)
    simpa [Button.new] using this

theorem addSelector_spec_witness :
    (Button.addSelector 2 (Button.new 0 4 128 12 2) 3 1 7).selector_count = 0 + 1 ∧
    (Button.addSelector 2 (Button.new 0 4 128 12 2) 3 1 7).cell 0 =
      some (Selector.mk 0 3 0 3 1 0 7 [0]) ∧
    Button.addSelector 2 (sampleButton 0 0) 3 1 7 = sampleButton 0 0 :=
  ⟨((addSelector_spec 2 (Button.new 0 4 128 12 2) 3 1 7 (by decide) (by decide)
      (by decide)).1 (by decide)).1,
    by
      obtain ⟨fresh, h1, h2, _⟩ := ((addSelector_spec 2 (Button.new 0 4 128 12 2) 3 1 7
        (by decide) (by decide) (by decide)).1 (by decide)).2.1
      exact Eq.trans h1 (by subst h2; decide),
    (addSelector_spec 2 (sampleButton 0 0) 3 1 7 (by decide) (by decide)
      (by decide)).2.1 (by decide)⟩

/-! ## Commands routed through the Button -/

theorem new_good (x_pos y_pos size max count : Int) (hws : 1 ≤ size) (hvc : 1 ≤ count)
    (hmax : 1 ≤ max) : (Selector.new x_pos y_pos size max count).Good := by
  refine ⟨new_inv x_pos y_pos size max count hws hvc hmax, ?_, ?_⟩
  · show (0 : Int) < count
    omega
  · rw [new_selected_indexes x_pos y_pos size max count hmax]
    intro v hv
    rcases List.mem_cons.mp hv with e | hrep
    · right
      rw [e]
      exact ⟨le_refl 0, by show (0 : Int) < count; omega⟩
    · exact Or.inl (List.eq_of_mem_replicate hrep)

theorem moveLeft_good (s : Selector) (h : s.Good) : s.moveLeft.1.Good := by
  refine ⟨moveLeft_inv s h.inv, ?_, ?_⟩
  · have := h.cur_lt
    simp only [Selector.moveLeft]
    split_ifs <;> simp only <;> omega
  · have he := h.entries
    simp only [Selector.moveLeft]
    split_ifs <;> exact he

theorem moveRight_good (s : Selector) (h : s.Good) : s.moveRight.1.Good := by
  refine ⟨moveRight_inv s h.inv, ?_, ?_⟩
  · have := h.cur_lt
    have := h.inv.vc
    simp only [Selector.moveRight]
    split_ifs <;> simp only <;> omega
  · have he := h.entries
    simp only [Selector.moveRight]
    split_ifs <;> exact he

theorem moveUp_good (s : Selector) (h : s.Good) : s.moveUp.1.Good := by
  refine ⟨moveUp_inv s h.inv, ?_, h.entries⟩
  have := h.cur_lt
  have := h.inv.ws
  simp only [Selector.moveUp]
  split_ifs <;> omega

/-- The row move keeps the cursor in range when `atBottom()` is not 1. -/
theorem moveDown_good (s : Selector) (h : s.Good) (hb : s.atBottom.2 ≠ 1) :
    s.moveDown.1.Good := by
  refine ⟨moveDown_inv s h.inv, ?_, h.entries⟩
  have := h.cur_lt
  have hlt : ¬ s.current_changing_index ≥ s.value_count - s.window_size := by
    intro hge
    apply hb
    simp only [Selector.atBottom, if_pos hge]
  simp only [Selector.moveDown]
  split_ifs <;> omega

theorem press_good (s : Selector) (h : s.Good) : s.press.1.Good := by
  obtain ⟨hinv, hlt, hent⟩ := h
  have hcur := hinv.cur
  refine ⟨press_inv s hinv, by rw [(press_frame s).2.2.2, (press_frame s).2.2.1]; exact hlt, ?_⟩
  rw [(press_frame s).2.2.1]
  have hc : s.current_changing_index = -1 ∨
      (0 ≤ s.current_changing_index ∧ s.current_changing_index < s.value_count) :=
    Or.inr ⟨hcur, hlt⟩
  by_cases hm : s.max_selected = 1
  · rw [press_single s hm]
    have hl : s.selected_indexes.length = 1 := by rw [← hinv.len, hm]; rfl
    obtain ⟨v0, hv0⟩ := List.length_eq_one.mp hl
    simp only [hv0, List.set_cons_zero]
    intro v hv
    rw [List.mem_singleton.mp hv]
    exact hc
  · rcases press_multi_decomp s hinv hm with
      ⟨_, l, z, hlz, hp⟩ | ⟨m, _, hp⟩ | ⟨l1, l2, m, hsel, _, _, _, _, _, hp⟩
    · rw [hp]
      intro v hv
      rcases List.mem_cons.mp hv with e | hl
      · rw [e]; exact hc
      · exact hent v (by rw [hlz]; exact List.mem_append_left _ hl)
    · rw [hp]; exact hent
    · rw [hp]
      intro v hv
      rcases List.mem_append.mp hv with h12 | hrep
      · apply hent v
        rw [hsel]
        rcases List.mem_append.mp h12 with h1 | h2
        · exact List.mem_append_left _ (List.mem_append_left _ h1)
        · exact List.mem_append_left _ (List.mem_append_right _ (List.mem_cons_of_mem _ h2))
      · exact Or.inl (List.eq_of_mem_replicate hrep)

theorem store_ready (b : Button) (h : b.Ready) (s s1 : Selector)
    (hs : b.cell b.current_selector = some s) (hg : s1.Good) :
    (b.store b.current_selector s1).Ready := by
  obtain ⟨hi0, hi1⟩ := cell_eq_some_bound b _ s hs
  obtain ⟨f1, f2, _⟩ := store_fields b b.current_selector s1
  refine ⟨by rw [f2]; exact h.cs0, by rw [f2, f1]; exact h.cs1, ?_, ?_⟩
  · intro j hj0 hj1
    by_cases hj : j = b.current_selector
    · rw [hj]; exact ⟨s1, cell_store_same b _ s1 hi0 hi1⟩
    · rw [cell_store_other b _ j s1 hj]
      exact h.filled j hj0 (by rw [f1] at hj1; exact hj1)
  · intro j t ht
    by_cases hj : j = b.current_selector
    · rw [hj, cell_store_same b _ s1 hi0 hi1] at ht
      cases ht
      exact hg
    · rw [cell_store_other b _ j s1 hj] at ht
      exact h.good j t ht

theorem switch_ready (b : Button) (h : b.Ready) (c : Int) (h0 : 0 ≤ c)
    (h1 : c < b.selector_count) : ({ b with current_selector := c } : Button).Ready :=
  ⟨h0, h1, h.filled, h.good⟩

theorem step_ready (b : Button) (h : b.Ready) (c : Cmd) : (b.step c).1.Ready := by
  obtain ⟨s, hs⟩ := h.filled b.current_selector h.cs0 h.cs1
  have hg := h.good _ s hs
  have h0 := h.cs0
  have h1 := h.cs1
  cases c
  · simp only [Button.step, Button.subMenuDown, hs]
    by_cases hb : s.atBottom.2 = 1
    · rw [if_pos hb]
      split_ifs
      · exact switch_ready b h _ (by omega) (by omega)
      · exact switch_ready b h _ (le_refl 0) (by omega)
    · rw [if_neg hb]
      split_ifs
      · exact store_ready b h s _ hs (moveDown_good s hg hb)
      · exact h
  · simp only [Button.step, Button.subMenuUp, hs]
    split_ifs
    · exact switch_ready b h _ (by omega) (by omega)
    · exact switch_ready b h _ (by omega) (by omega)
    · exact store_ready b h s _ hs (moveUp_good s hg)
  · simp only [Button.step, Button.subMenuLeft, hs]
    exact store_ready b h s _ hs (moveLeft_good s hg)
  · simp only [Button.step, Button.subMenuRight, hs]
    exact store_ready b h s _ hs (moveRight_good s hg)
  · simp only [Button.step, Button.pressSubMenu, hs]
    exact store_ready b h s _ hs (press_good s hg)

theorem run_ready (b : Button) (h : b.Ready) (cmds : List Cmd) : (b.run cmds).Ready := by
  induction cmds generalizing b with
  | nil => exact h
  | cons c cs ih => exact ih _ (step_ready b h c)

theorem addAll_full (MAX_SELECTORS : Int) (adds : List SelectorArgs) (b : Button)
    (h : ¬ b.selector_count < MAX_SELECTORS) : Button.addAll MAX_SELECTORS b adds = b := by
  induction adds with
  | nil => rfl
  | cons a as ih =>
    simp only [Button.addAll, addSelector_full MAX_SELECTORS b _ _ _ h]
    exact ih

theorem new_cell (x_pos y_pos width height MAX_SELECTORS j : Int) :
    (Button.new x_pos y_pos width height MAX_SELECTORS).cell j = none := by
  simp only [Button.cell, Button.new]
  split_ifs
  · by_cases hj : j.toNat < (List.replicate MAX_SELECTORS.toNat (none : Option Selector)).length
    · rw [List.getD_eq_getElem _ _ hj]
      simp
    · exact List.getD_eq_default _ _ (by omega)
  · rfl

/-- A new Button given at least one Selector by `addSelector` calls whose
arguments meet the construction preconditions is ready for commands. -/
theorem addAll_ready (x_pos y_pos width height MAX_SELECTORS : Int) (adds : List SelectorArgs)
    (hadds : ∀ a ∈ adds, 1 ≤ a.window_size ∧ 1 ≤ a.vals ∧ 1 ≤ a.max)
    (hone : 1 ≤ (Button.addAll MAX_SELECTORS
      (Button.new x_pos y_pos width height MAX_SELECTORS) adds).selector_count) :
    (Button.addAll MAX_SELECTORS
      (Button.new x_pos y_pos width height MAX_SELECTORS) adds).Ready := by
  have hM : 0 ≤ MAX_SELECTORS := by
    by_contra hneg
    rw [addAll_full MAX_SELECTORS adds _ (by show ¬ (0 : Int) < MAX_SELECTORS; omega)] at hone
    have hz : (1 : Int) ≤ 0 := hone
    omega
  obtain ⟨i1, i2, i3, _, i5, i6⟩ := addAll_spec MAX_SELECTORS adds
    (Button.new x_pos y_pos width height MAX_SELECTORS) (le_refl 0) hM (by simp [Button.new])
  have hc0 : (Button.new x_pos y_pos width height MAX_SELECTORS).selector_count = 0 := rfl
  rw [hc0] at i1 i5 i6
  simp only [Int.zero_add] at i1 i5 i6
  have hfill : ∀ j : Int, 0 ≤ j → j < (adds.length : Int) → j < MAX_SELECTORS →
      ∃ a ∈ adds, (Button.addAll MAX_SELECTORS
        (Button.new x_pos y_pos width height MAX_SELECTORS) adds).cell j =
          some (Selector.new 0 (28 * (j + 1) - 25) a.window_size a.max a.vals) := by
    intro j hj0 hj1 hj2
    have hk : j.toNat < adds.length := by omega
    have hget : adds.get? j.toNat = some (adds.get ⟨j.toNat, hk⟩) := List.get?_eq_get hk
    have := i6 j.toNat _ hget (by omega)
    have e : ((j.toNat : Nat) : Int) = j := Int.toNat_of_nonneg hj0
    rw [e] at this
    exact ⟨_, List.get_mem adds j.toNat hk, this⟩
  refine ⟨by rw [i3]; exact le_refl 0, by rw [i3]; exact hone, ?_, ?_⟩
  · intro j hj0 hj1
    rw [i1] at hj1
    obtain ⟨a, _, ha⟩ := hfill j hj0 (by omega) (by omega)
    exact ⟨_, ha⟩
  · intro j s hs
    obtain ⟨hj0, hjb⟩ := cell_eq_some_bound _ j s hs
    rw [i2] at hjb
    by_cases hj1 : j < (adds.length : Int)
    · obtain ⟨a, hmem, ha⟩ := hfill j hj0 hj1 (by omega)
      rw [ha] at hs
      cases hs
      obtain ⟨a1, a2, a3⟩ := hadds a hmem
      exact new_good _ _ _ _ _ a1 a2 a3
    · rw [i5 j (by omega), new_cell] at hs
      exact Option.noConfusion hs

/-- C18: take a new Button, give it Selectors by `addSelector` calls whose
arguments satisfy `window_size >= 1`, `vals >= 1` and `1 <= max <= vals`, at
least one of which found room, and then apply any finite sequence of
`subMenuDown`, `subMenuUp`, `subMenuLeft`, `subMenuRight` and `pressSubMenu`.
Afterwards `current_selector` is in `[0, selector_count)`, and every Selector
of the Button has its cursor in `[0, value_count)` and every entry of its
selection array other than the sentinel in `[0, value_count)`.  The row moves
reach a Selector only when it is not at the edge: `subMenuDown` leaves the
selector array as it is unless `atBottom()` is 0, and `subMenuUp` unless
`atTop()` is 0. -/
theorem button_routing_keeps_ranges (x_pos y_pos width height MAX_SELECTORS : Int)
    (adds : List SelectorArgs)
    (hadds : ∀ a ∈ adds, 1 ≤ a.window_size ∧ 1 ≤ a.vals ∧ 1 ≤ a.max ∧ a.max ≤ a.vals)
    (hone : 1 ≤ (Button.addAll MAX_SELECTORS
      (Button.new x_pos y_pos width height MAX_SELECTORS) adds).selector_count)
    (cmds : List Cmd) :
    (0 ≤ ((Button.addAll MAX_SELECTORS
        (Button.new x_pos y_pos width height MAX_SELECTORS) adds).run cmds).current_selector ∧
      ((Button.addAll MAX_SELECTORS
        (Button.new x_pos y_pos width height MAX_SELECTORS) adds).run cmds).current_selector <
      ((Button.addAll MAX_SELECTORS
        (Button.new x_pos y_pos width height MAX_SELECTORS) adds).run cmds).selector_count) ∧
    (∀ (j : Int) (s : Selector),
      ((Button.addAll MAX_SELECTORS
        (Button.new x_pos y_pos width height MAX_SELECTORS) adds).run cmds).cell j = some s →
      0 ≤ s.current_changing_index ∧ s.current_changing_index < s.value_count ∧
      ∀ v ∈ s.selected_indexes, v ≠ -1 → 0 ≤ v ∧ v < s.value_count) ∧
    (∀ (b : Button) (s : Selector), b.cell b.current_selector = some s →
      (s.atBottom.2 ≠ 0 → b.subMenuDown.1.selectors = b.selectors) ∧
      (s.atTop.2 ≠ 0 → b.subMenuUp.1.selectors = b.selectors)) := by
  have hready := run_ready _ (addAll_ready x_pos y_pos width height MAX_SELECTORS adds
    (fun a ha => ⟨(hadds a ha).1, (hadds a ha).2.1, (hadds a ha).2.2.1⟩) hone) cmds
  refine ⟨⟨hready.cs0, hready.cs1⟩, fun j s hs => ?_, fun b s hs => ⟨fun hb => ?_, fun ht => ?_⟩⟩
  · obtain ⟨hinv, hlt, hent⟩ := hready.good j s hs
    refine ⟨hinv.cur, hlt, fun v hv hne => ?_⟩
    rcases hent v hv with e | hr
    · exact absurd e hne
    · exact hr
  · have h1 : s.atBottom.2 = 1 := by
      have : s.atBottom.2 = 1 ∨ s.atBottom.2 = 0 := by
        simp only [Selector.atBottom]; split_ifs <;> simp
      rcases this with h | h
      · exact h
      · exact absurd h hb
    simp only [Button.subMenuDown, hs, if_pos h1]
    split_ifs <;> rfl
  · have h1 : s.atTop.2 = 1 := by
      have : s.atTop.2 = 1 ∨ s.atTop.2 = 0 := by
        simp only [Selector.atTop]; split_ifs <;> simp
      rcases this with h | h
      · exact h
      · exact absurd h ht
    simp only [Button.subMenuUp, hs, if_pos h1]
    split_ifs <;> rfl

theorem button_routing_keeps_ranges_witness :
    (0 ≤ ((Button.addAll 2 (Button.new 0 4 128 12 2) [⟨3, 1, 7⟩, ⟨2, 2, 4⟩]).run
        [Cmd.subMenuRight, Cmd.subMenuDown, Cmd.subMenuDown, Cmd.pressSubMenu]).current_selector ∧
      ((Button.addAll 2 (Button.new 0 4 128 12 2) [⟨3, 1, 7⟩, ⟨2, 2, 4⟩]).run
        [Cmd.subMenuRight, Cmd.subMenuDown, Cmd.subMenuDown, Cmd.pressSubMenu]).current_selector <
      ((Button.addAll 2 (Button.new 0 4 128 12 2) [⟨3, 1, 7⟩, ⟨2, 2, 4⟩]).run
        [Cmd.subMenuRight, Cmd.subMenuDown, Cmd.subMenuDown,
          Cmd.pressSubMenu]).selector_count) ∧
    (∀ (j : Int) (s : Selector),
      ((Button.addAll 2 (Button.new 0 4 128 12 2) [⟨3, 1, 7⟩, ⟨2, 2, 4⟩]).run
        [Cmd.subMenuRight, Cmd.subMenuDown, Cmd.subMenuDown, Cmd.pressSubMenu]).cell j =
        some s →
      0 ≤ s.current_changing_index ∧ s.current_changing_index < s.value_count ∧
      ∀ v ∈ s.selected_indexes, v ≠ -1 → 0 ≤ v ∧ v < s.value_count) :=
  ⟨(button_routing_keeps_ranges 0 4 128 12 2 [⟨3, 1, 7⟩, ⟨2, 2, 4⟩] (by decide) (by decide)
      [Cmd.subMenuRight, Cmd.subMenuDown, Cmd.subMenuDown, Cmd.pressSubMenu]).1,
    (button_routing_keeps_ranges 0 4 128 12 2 [⟨3, 1, 7⟩, ⟨2, 2, 4⟩] (by decide) (by decide)
      [Cmd.subMenuRight, Cmd.subMenuDown, Cmd.subMenuDown, Cmd.pressSubMenu]).2.1⟩

end ESPIR
